import Mathlib

/-!
Verification of the ISO-BMFF box engine of the Steam video downloader
(`src/content.js`) against its natural-language specification.

The code is shallowly embedded: byte buffers (`ArrayBuffer`/`Uint8Array`)
become `List Nat` with every entry a byte value, big-endian `DataView`
reads/writes become explicit arithmetic on those lists, and JS exceptions
(`RangeError` from out-of-range `DataView` access or typed-array view
construction, and explicit `throw`) become `Except Unit`.
-/

namespace SVD

/-- Byte buffers.  Entries are byte values `< 256` wherever the embedded
code writes them; reads outside the buffer use `getD` with default `0`,
which is only exercised at call sites the source guards by bounds checks. -/
abbrev Bytes := List Nat

/-- `n` zero bytes: a freshly allocated `Uint8Array(n)`. -/
def zeros (n : Nat) : Bytes := List.replicate n 0

/-- Big-endian 32-bit serialization of `v`, as written by
`DataView.setUint32` (which coerces the value mod `2^32`). -/
def u32be (v : Nat) : Bytes :=
  [v / 2 ^ 24 % 256, v / 2 ^ 16 % 256, v / 2 ^ 8 % 256, v % 256]

/-- Big-endian 16-bit serialization, as written by `DataView.setUint16`. -/
def u16be (v : Nat) : Bytes := [v / 2 ^ 8 % 256, v % 256]

/-- Big-endian 32-bit two's complement serialization of a signed value,
as written by `DataView.setInt32`. -/
def i32be (v : Int) : Bytes := u32be ((v % (2 ^ 32 : Int)).toNat)

/-- `DataView.getUint32(off)` big-endian.  In-bounds at every embedded
call site (the source guards each read); out of bounds it pads with 0. -/
def readU32 (b : Bytes) (off : Nat) : Nat :=
  b.getD off 0 * 2 ^ 24 + b.getD (off + 1) 0 * 2 ^ 16 +
    b.getD (off + 2) 0 * 2 ^ 8 + b.getD (off + 3) 0

/-- `DataView.getBigUint64(off)` big-endian (after `Number(...)`). -/
def readU64 (b : Bytes) (off : Nat) : Nat :=
  readU32 b off * 2 ^ 32 + readU32 b (off + 4)

/-- In-place big-endian 32-bit store: `DataView.setUint32(off, v)` on a
buffer known to be large enough (writes beyond the end are dropped,
matching call sites where the source's bounds always hold). -/
def writeU32 (b : Bytes) (off v : Nat) : Bytes :=
  ((((b.set off (v / 2 ^ 24 % 256)).set (off + 1) (v / 2 ^ 16 % 256)).set
      (off + 2) (v / 2 ^ 8 % 256)).set (off + 3) (v % 256))

/-- Checked `DataView.setUint32(off, v)`: JS throws a `RangeError` when
fewer than 4 bytes remain at `off`. -/
def setU32 (b : Bytes) (off v : Nat) : Except Unit Bytes :=
  if off + 4 ≤ b.length then .ok (writeU32 b off v) else .error ()

/-- `TypedArray.slice(s, e)` / `ArrayBuffer.slice(s, e)`: a clamped copy,
never throwing. -/
def jsSlice (b : Bytes) (s e : Nat) : Bytes := (b.take e).drop s

/-- `new Uint8Array(buffer, off, len)`: a view; JS throws a `RangeError`
if the range does not fit the buffer.  Views are embedded as copies, with
the one mutation-through-view in the source modelled explicitly. -/
def boxRange (b : Bytes) (off len : Nat) : Except Unit Bytes :=
  if off + len ≤ b.length then .ok ((b.drop off).take len) else .error ()

/-- The four type bytes of the box at `off` (`String.fromCharCode` over
bytes `off+4 .. off+7`). -/
def typeAt (b : Bytes) (off : Nat) : Bytes :=
  [b.getD (off + 4) 0, b.getD (off + 5) 0, b.getD (off + 6) 0, b.getD (off + 7) 0]

/-! Four-character box type tags (ASCII byte values). -/

def FTYP : Bytes := [102, 116, 121, 112]
def MOOV : Bytes := [109, 111, 111, 118]
def TRAK : Bytes := [116, 114, 97, 107]
def MVEX : Bytes := [109, 118, 101, 120]
def TREX : Bytes := [116, 114, 101, 120]
def TKHD : Bytes := [116, 107, 104, 100]
def TFHD : Bytes := [116, 102, 104, 100]
def TRAF : Bytes := [116, 114, 97, 102]
def SIDX : Bytes := [115, 105, 100, 120]
def STYP : Bytes := [115, 116, 121, 112]
def MOOF : Bytes := [109, 111, 111, 102]
def MDAT : Bytes := [109, 100, 97, 116]
def STSD : Bytes := [115, 116, 115, 100]
def STTS : Bytes := [115, 116, 116, 115]
def STSC : Bytes := [115, 116, 115, 99]
def STSZ : Bytes := [115, 116, 115, 122]
def STCO : Bytes := [115, 116, 99, 111]
def STSS : Bytes := [115, 116, 115, 115]
def CTTS : Bytes := [99, 116, 116, 115]
def STBL : Bytes := [115, 116, 98, 108]
def MINF : Bytes := [109, 105, 110, 102]
def MDIA : Bytes := [109, 100, 105, 97]
def MDHD : Bytes := [109, 100, 104, 100]
def HDLR : Bytes := [104, 100, 108, 114]
def VMHD : Bytes := [118, 109, 104, 100]
def SMHD : Bytes := [115, 109, 104, 100]
def DINF : Bytes := [100, 105, 110, 102]
def DREF : Bytes := [100, 114, 101, 102]
def URLB : Bytes := [117, 114, 108, 32]
def MVHD : Bytes := [109, 118, 104, 100]
def FREE : Bytes := [102, 114, 101, 101]

/-- A parsed top-level box header (`readBoxHeader`'s result object). -/
structure BoxHeader where
  size : Nat
  typ : Bytes
  headerSize : Nat
  offset : Nat
deriving DecidableEq, Repr

/-- `readBoxHeader(view, offset)` from `src/content.js:18`.  Returns
`.ok none` for the not-found signal (fewer than 8 bytes remaining),
`.error` when the 64-bit size read (`getBigUint64(offset+8)`) falls off
the end of the buffer, which throws a `RangeError` in JS. -/
def readBoxHeader (b : Bytes) (off : Nat) : Except Unit (Option BoxHeader) :=
  if b.length < off + 8 then .ok none
  else
    let size := readU32 b off
    let typ := typeAt b off
    if size = 1 then
      if off + 16 ≤ b.length then
        .ok (some { size := readU64 b (off + 8), typ := typ, headerSize := 16, offset := off })
      else .error ()
    else if size = 0 then
      .ok (some { size := b.length - off, typ := typ, headerSize := 8, offset := off })
    else
      .ok (some { size := size, typ := typ, headerSize := 8, offset := off })

/-- The scan loop of `parseBoxes` (`src/content.js:40`), fuel-bounded so
that it is structurally recursive (and hence kernel-computable).  Every
accepted box advances the offset by its size, at least 8, so
`b.length + 1` units of fuel always outlast the loop; `parseBoxesT_fuel`
below proves the fuel irrelevant beyond that bound. -/
def parseBoxesT (b : Bytes) : Nat → Nat → Except Unit (List BoxHeader)
  | 0, _ => .ok []
  | fuel + 1, off =>
    if off < b.length then
      match readBoxHeader b off with
      | .error _ => .error ()
      | .ok none => .ok []
      | .ok (some bx) =>
        if bx.size < 8 then .ok []
        else
          match parseBoxesT b fuel (off + bx.size) with
          | .error _ => .error ()
          | .ok rest => .ok (bx :: rest)
    else .ok []

/-- The `parseBoxes` loop started at an arbitrary offset. -/
def parseBoxesFrom (b : Bytes) (off : Nat) : Except Unit (List BoxHeader) :=
  parseBoxesT b (b.length + 1) off

/-- `parseBoxes(view)` from `src/content.js:40`. -/
def parseBoxes (b : Bytes) : Except Unit (List BoxHeader) := parseBoxesFrom b 0

/-- The shared sub-box scan loop (`findSubBox`, `findSubBoxWithOffset`,
`updateTrackIdInTrak`, and the outer loop of `updateTrackIdInMoof` all use
this exact loop: start at 8, run while `offset < length - 8`, break on
`size < 8` or overrun, otherwise match the type or skip by `size`).
Fuel-bounded exactly like `parseBoxesT`; every skipped child advances the
offset by at least 8. -/
def scanSubT (b : Bytes) (typ : Bytes) : Nat → Nat → Option Nat
  | 0, _ => none
  | fuel + 1, off =>
    if off < b.length - 8 then
      if readU32 b off < 8 ∨ b.length < off + readU32 b off then none
      else if typeAt b off = typ then some off
      else scanSubT b typ fuel (off + readU32 b off)
    else none

/-- The sub-box scan, with fuel that always outlasts the loop.  Returns
the offset of the first matching immediate child. -/
def scanSub (b : Bytes) (typ : Bytes) (off : Nat) : Option Nat :=
  scanSubT b typ (b.length + 1) off

/-- `findSubBox(data, targetType)` from `src/content.js:1356`: the slice
of the first matching immediate child. -/
def findSubBox (b : Bytes) (typ : Bytes) : Option Bytes :=
  match scanSub b typ 8 with
  | some p => some (jsSlice b p (p + readU32 b p))
  | none => none

/-- Result record of `findSubBoxWithOffset`. -/
structure SubBox where
  offset : Nat
  size : Nat
  data : Bytes
deriving DecidableEq, Repr

/-- `findSubBoxWithOffset(data, targetType)` from `src/content.js:235`. -/
def findSubBoxWithOffset (b : Bytes) (typ : Bytes) : Option SubBox :=
  match scanSub b typ 8 with
  | some p => some { offset := p, size := readU32 b p, data := jsSlice b p (p + readU32 b p) }
  | none => none

/-- `updateTrackIdInSidx(sidxData, newTrackId)` from `src/content.js:166`:
guarded no-op below 16 bytes, else writes the 32-bit reference_ID at
offset 12 in place. -/
def updateTrackIdInSidx (b : Bytes) (newId : Nat) : Bytes :=
  if b.length < 16 then b else writeU32 b 12 newId

/-- `updateTrackIdInTrex(trexData, newTrackId)` from `src/content.js:251`:
same fixed-offset patch for the trex track_ID. -/
def updateTrackIdInTrex (b : Bytes) (newId : Nat) : Bytes :=
  if b.length < 16 then b else writeU32 b 12 newId

/-- `updateTrackIdInTrak(trakData, newTrackId)` from `src/content.js:1402`:
finds the first `tkhd` child and writes the track_ID at box-relative
offset 20 (version 0) or 28 (version 1).  The write is a `DataView`
store and throws when the (lying) `tkhd` is too short for the field. -/
def updateTrackIdInTrak (b : Bytes) (newId : Nat) : Except Unit Bytes :=
  match scanSub b TKHD 8 with
  | none => .ok b
  | some p =>
    let version := b.getD (p + 8) 0
    setU32 b (p + (if version = 0 then 20 else 28)) newId

/-- The inner `traf` scan of `updateTrackIdInMoof` (`src/content.js:1446`):
runs while `trafOffset < endOff - 8`, breaks only on `subSize < 8` (no
overrun check in the source), and returns the first `tfhd` offset.
Fuel-bounded; each step advances by at least 8. -/
def scanTfhdT (b : Bytes) (endOff : Nat) : Nat → Nat → Option Nat
  | 0, _ => none
  | fuel + 1, off =>
    if off < endOff - 8 then
      if readU32 b off < 8 then none
      else if typeAt b off = TFHD then some off
      else scanTfhdT b endOff fuel (off + readU32 b off)
    else none

/-- The inner `traf` scan with always-sufficient fuel. -/
def scanTfhd (b : Bytes) (endOff off : Nat) : Option Nat :=
  scanTfhdT b endOff (endOff + 1) off

/-- The outer loop of `updateTrackIdInMoof` (`src/content.js:1431`):
scan top-level children of the moof for `traf` boxes; in each, look for a
`tfhd`; patch the first `tfhd` found (write at `trafOffset + 12`,
a checked `DataView` store) and stop.  Fuel-bounded like the others. -/
def updateMoofT (b : Bytes) (newId : Nat) : Nat → Nat → Except Unit Bytes
  | 0, _ => .ok b
  | fuel + 1, off =>
    if off < b.length - 8 then
      if readU32 b off < 8 ∨ b.length < off + readU32 b off then .ok b
      else if typeAt b off = TRAF then
        match scanTfhd b (off + readU32 b off) (off + 8) with
        | some q => setU32 b (q + 12) newId
        | none => updateMoofT b newId fuel (off + readU32 b off)
      else updateMoofT b newId fuel (off + readU32 b off)
    else .ok b

/-- `updateTrackIdInMoof(moofData, newTrackId)` from `src/content.js:1431`. -/
def updateTrackIdInMoof (b : Bytes) (newId : Nat) : Except Unit Bytes :=
  updateMoofT b newId (b.length + 1) 8

/-- `createMergedMoov(videoMoovData, audioTrakBox, audioTrexBox)` from
`src/content.js:174`.  Copies the audio trak, patches its track_ID to 2;
with no video `mvex` or no audio `trex` it appends the trak and rewrites
the moov size; otherwise it rebuilds as
`[bytes before mvex] + [patched trak] + [mvex with patched trex appended]`
and rewrites both size fields.  The leading size writes on the fresh
buffers use the unchecked store: those buffers contain at least one whole
box header whenever the finder succeeded. -/
def createMergedMoov (vMoov aTrak : Bytes) (aTrex : Option Bytes) :
    Except Unit Bytes :=
  match updateTrackIdInTrak aTrak 2 with
  | .error e => .error e
  | .ok trakCopy =>
    match findSubBoxWithOffset vMoov MVEX, aTrex with
    | some mv, some tx =>
      let trexCopy := updateTrackIdInTrex tx 2
      let beforeMvex := jsSlice vMoov 0 mv.offset
      let oldMvex := jsSlice vMoov mv.offset (mv.offset + mv.size)
      let newMvex := writeU32 (oldMvex ++ trexCopy) 0 (mv.size + trexCopy.length)
      .ok (writeU32 (beforeMvex ++ trakCopy ++ newMvex) 0
        (beforeMvex.length + trakCopy.length + newMvex.length))
    | _, _ =>
      .ok (writeU32 (vMoov ++ trakCopy) 0 (vMoov.length + trakCopy.length))

/-- One collected fragment of the audio stream, tagged with whether it is
a `sidx` (those are views into the caller's buffer and are patched after
collection, writing through to the source). -/
structure AudioFrag where
  data : Bytes
  isSidx : Bool

/-- The video fragment collection loop (`src/content.js:91`): every
top-level `styp`/`sidx`/`moof`/`mdat` box as a view (JS throws when
the declared size overruns the buffer). -/
def collectVideoFrags (v : Bytes) : List BoxHeader → Except Unit (List Bytes)
  | [] => .ok []
  | bx :: rest =>
    if bx.typ = STYP ∨ bx.typ = SIDX ∨ bx.typ = MOOF ∨ bx.typ = MDAT then
      match boxRange v bx.offset bx.size with
      | .error e => .error e
      | .ok d =>
        match collectVideoFrags v rest with
        | .error e => .error e
        | .ok r => .ok (d :: r)
    else collectVideoFrags v rest

/-- The audio fragment collection loop (`src/content.js:104`):
`styp`/`sidx`/`mdat` are views, `moof` is a fresh slice copy whose
`tfhd` track_ID is patched to 2 in place. -/
def collectAudioFrags (a : Bytes) : List BoxHeader → Except Unit (List AudioFrag)
  | [] => .ok []
  | bx :: rest =>
    if bx.typ = STYP then
      match boxRange a bx.offset bx.size with
      | .error e => .error e
      | .ok d =>
        match collectAudioFrags a rest with
        | .error e => .error e
        | .ok r => .ok ({ data := d, isSidx := false } :: r)
    else if bx.typ = SIDX then
      match boxRange a bx.offset bx.size with
      | .error e => .error e
      | .ok d =>
        match collectAudioFrags a rest with
        | .error e => .error e
        | .ok r => .ok ({ data := d, isSidx := true } :: r)
    else if bx.typ = MOOF then
      match updateTrackIdInMoof (jsSlice a bx.offset (bx.offset + bx.size)) 2 with
      | .error e => .error e
      | .ok d =>
        match collectAudioFrags a rest with
        | .error e => .error e
        | .ok r => .ok ({ data := d, isSidx := false } :: r)
    else if bx.typ = MDAT then
      match boxRange a bx.offset bx.size with
      | .error e => .error e
      | .ok d =>
        match collectAudioFrags a rest with
        | .error e => .error e
        | .ok r => .ok ({ data := d, isSidx := false } :: r)
    else collectAudioFrags a rest

/-- The sidx patch loop (`src/content.js:125`): each collected `sidx`
fragment is patched through `updateTrackIdInSidx`.  Because those
fragments are views, the same bytes change inside the caller's buffer. -/
def patchSidxFrags (frags : List AudioFrag) : List Bytes :=
  frags.map fun f => if f.isSidx then updateTrackIdInSidx f.data 2 else f.data

/-- The effect of the sidx patch loop on the caller's audio buffer:
every top-level `sidx` box of at least 16 bytes gets reference_ID 2
written at its offset + 12 (the patched views alias the buffer). -/
def patchAudioBuffer (a : Bytes) : List BoxHeader → Bytes
  | [] => a
  | bx :: rest =>
    patchAudioBuffer
      (if bx.typ = SIDX ∧ 16 ≤ bx.size then writeU32 a (bx.offset + 12) 2 else a) rest

/-- `binaryMuxFragmentedMP4(videoData, audioData)` from
`src/content.js:11`, with the buffer mutation made explicit: the result
is `(output, videoData', audioData')` where the primed components are the
caller's input buffers as they stand after the call (the source patches
audio `sidx` boxes through views into `audioData`; `videoData` is only
read).  `.error` covers every `throw` and every JS `RangeError` path. -/
def binaryMuxFragmentedMP4 (videoData audioData : Bytes) :
    Except Unit (Bytes × Bytes × Bytes) :=
  match parseBoxes videoData, parseBoxes audioData with
  | .error e, _ => .error e
  | _, .error e => .error e
  | .ok videoBoxes, .ok audioBoxes =>
    match videoBoxes.find? (fun bx => bx.typ == FTYP),
        videoBoxes.find? (fun bx => bx.typ == MOOV),
        audioBoxes.find? (fun bx => bx.typ == MOOV) with
    | some videoFtyp, some videoMoov, some audioMoov =>
      match boxRange videoData videoMoov.offset videoMoov.size,
          boxRange audioData audioMoov.offset audioMoov.size with
      | .ok videoMoovData, .ok audioMoovData =>
        match findSubBox audioMoovData TRAK with
        | none => .error ()
        | some audioTrakBox =>
          let audioTrexBox :=
            match findSubBox audioMoovData MVEX with
            | some mvex => findSubBox mvex TREX
            | none => none
          match createMergedMoov videoMoovData audioTrakBox audioTrexBox with
          | .error e => .error e
          | .ok mergedMoov =>
            match collectVideoFrags videoData videoBoxes,
                collectAudioFrags audioData audioBoxes,
                boxRange videoData videoFtyp.offset videoFtyp.size with
            | .ok videoFrags, .ok audioFrags, .ok ftypData =>
              .ok (ftypData ++ mergedMoov ++ videoFrags.flatten ++
                    (patchSidxFrags audioFrags).flatten,
                  videoData,
                  patchAudioBuffer audioData audioBoxes)
            | _, _, _ => .error ()
      | _, _ => .error ()
    | _, _, _ => .error ()

/-! ## The top-level fallback chain (`muxVideoAudio`, `src/content.js:1471`)

The three muxing strategies are driven by the external MP4Box demuxer and
by wall-clock timeouts, so `muxVideoAudio` is embedded parametrically in
the outcome of each strategy attempt: `.error ()` stands for a thrown
error, `.ok r` for a returned buffer `r`.  The JS acceptance check
`r.byteLength > videoData.byteLength * 0.9` is embedded as
`9 * videoLen < 10 * rLen`; for buffer lengths below `2^32` the
double-precision product `videoLen * 0.9` never rounds across an integer,
so the two comparisons agree on every reachable input.  The model assumes
the MP4Box library is loaded (otherwise the source throws before any
strategy runs). -/

/-- The final MP4Box-rebuild block of `muxVideoAudio`
(`src/content.js:1559-1759`): any thrown error is caught and the raw
video input is returned. -/
def muxStage3 (videoData : Bytes) (third : Except Unit Bytes) : Bytes :=
  match third with
  | .ok r => r
  | .error _ => videoData

/-- The fragmented-assembly fallback of `muxVideoAudio`
(`src/content.js:1492-1500`): accept the output only when it exceeds
90% of the video input's size, else continue down the chain. -/
def muxStage2 (videoData : Bytes) (frag third : Except Unit Bytes) : Bytes :=
  match frag with
  | .ok r => if 9 * videoData.length < 10 * r.length then r else muxStage3 videoData third
  | .error _ => muxStage3 videoData third

/-- `muxVideoAudio(videoData, audioData)` from `src/content.js:1471`:
try the progressive (defragmented) build, accept on the 90% size check,
else fall through to the fragmented assembly, then to the MP4Box rebuild
whose catch-all returns the raw video input. -/
def muxVideoAudio (videoData : Bytes) (prog frag third : Except Unit Bytes) : Bytes :=
  match prog with
  | .ok r => if 9 * videoData.length < 10 * r.length then r else muxStage2 videoData frag third
  | .error _ => muxStage2 videoData frag third

/-- A muxing strategy "fails" for the fallback chain when it throws or
its output does not exceed 90% of the video input's size. -/
def stratFails (videoData : Bytes) (x : Except Unit Bytes) : Prop :=
  x = .error () ∨ ∃ r, x = .ok r ∧ 10 * r.length ≤ 9 * videoData.length

/-! ## Sample collection (`defragmentWithRawStsd` and `parseFile`)

The demuxer is external; a collection run is embedded as the list of
`onSamples` events it delivers before the wall-clock timeout fires
(events arriving after the `resolved` flag is set are ignored by the
source and are irrelevant here).  Samples are abstract tokens. -/

/-- Per-track accumulators, initialised empty for every declared track
(`trackSamples[track.id] = []`, `src/content.js:347`).  A declared track
is `(id, nb_samples)`. -/
def initAcc (tracks : List (Nat × Nat)) : List (Nat × List Nat) :=
  tracks.map fun t => (t.1, [])

/-- Append a delivered batch to the matching track accumulator
(`trackSamples[trackId].push(...samples)`; the demuxer only reports
registered track ids). -/
def deliverBatch (acc : List (Nat × List Nat)) (id : Nat) (batch : List Nat) :
    List (Nat × List Nat) :=
  acc.map fun p => if p.1 = id then (p.1, p.2 ++ batch) else p

/-- Look up a track's accumulated samples. -/
def lookupSamples (acc : List (Nat × List Nat)) (id : Nat) : List Nat :=
  match acc.find? (fun p => p.1 == id) with
  | some p => p.2
  | none => []

/-- The completion check (`src/content.js:358`): every declared track's
accumulator has reached its declared sample count. -/
def allDoneB (tracks : List (Nat × Nat)) (acc : List (Nat × List Nat)) : Bool :=
  tracks.all fun t => t.2 ≤ (lookupSamples acc t.1).length

/-- Process delivered batches in order; `some acc` when the completion
check fires (the `resolved` flag stops further processing), `none` when
the events run out first, i.e. the timeout fires. -/
def collectLoop (tracks : List (Nat × Nat)) (acc : List (Nat × List Nat)) :
    List (Nat × List Nat) → Option (List (Nat × List Nat))
  | [] => none
  | e :: rest =>
    let acc' := deliverBatch acc e.1 e.2
    if allDoneB tracks acc' then some acc' else collectLoop tracks acc' rest

/-- The collection outcome of `defragmentWithRawStsd`
(`src/content.js:338-366` and `438-444`): completion resolves with the
accumulators and proceeds to the build; the timeout path runs
`reject(new Error('Timeout'))`. -/
def defragCollect (tracks : List (Nat × Nat)) (events : List (Nat × List Nat)) :
    Except Unit (List (Nat × List Nat)) :=
  match collectLoop tracks (initAcc tracks) events with
  | some acc => .ok acc
  | none => .error ()

/-- The accumulation loop of `parseFile` (`src/content.js:1525-1555`):
batches for the single extracted track are appended; the run resolves as
soon as the count reaches the declared total, and the timeout resolves
with whatever has been gathered. -/
def parseFileLoop (total : Nat) (acc : List Nat) : List (List Nat) → List Nat
  | [] => acc
  | e :: rest =>
    if total ≤ (acc ++ e).length then acc ++ e else parseFileLoop total (acc ++ e) rest

/-- The collection outcome of `parseFile`: always a sample list, partial
on timeout — never a rejection (its `onError` path is a genuine demuxer
error, not the timeout). -/
def parseFileCollect (total : Nat) (events : List (List Nat)) : List Nat :=
  parseFileLoop total [] events

/-! ## The progressive builder

`buildMP4WithRawStsd` (`src/content.js:448`) and `buildMP4File`
(`src/content.js:802`) construct a non-fragmented MP4 from collected
samples with the same two-pass offset resolution; they differ only in the
`ftyp` compatible-brand list and in where the `stsd` payload comes from.
Demuxer sample objects are embedded as explicit records; the JS
`Math.round(d * 1000 / ts)` on doubles is embedded as exact rational
arithmetic (`floor(q + 1/2)`, with the JS `NaN → 0` store for a zero
timescale matched by rational division by zero). -/

/-- A collected sample as delivered by the demuxer (`data` is `none` when
the sample object carries no payload — the JS code tests `s.data`
truthiness; an empty buffer is truthy). -/
structure MSample where
  data : Option Bytes
  duration : Nat
  cts : Int
  dts : Int
  is_sync : Bool

/-- A track record as assembled by `buildOutput`
(`src/content.js:404-413`) / `buildManualMP4` (`src/content.js:757-769`):
`rawStsd` feeds `buildMP4WithRawStsd`, `stsdEntry` (the serialized form
of the demuxer's sample-description entry) feeds `buildMP4File`. -/
structure MTrack where
  id : Nat
  isVideo : Bool
  timescale : Nat
  duration : Nat
  width : Nat
  height : Nat
  samples : List MSample
  rawStsd : Option Bytes
  stsdEntry : Option Bytes

/-- `s.data?.byteLength || 0`. -/
def sampleSize (s : MSample) : Nat :=
  match s.data with
  | some d => d.length
  | none => 0

/-- The run-length loop shared by `buildStts` (`src/content.js:1013`) and
the inlined copy in `buildTrak` (`src/content.js:567`): state is the
current run's duration and count; a differing duration flushes the run.
Entries are `(count, duration)`. -/
def sttsLoop : List Nat → Nat → Nat → List (Nat × Nat)
  | [], cur, count => if 0 < count then [(count, cur)] else []
  | d :: rest, cur, count =>
    if d = cur then sttsLoop rest cur (count + 1)
    else (count, cur) :: sttsLoop rest d 1

/-- The stts entry list for a track's per-sample durations; the initial
run duration is `samples[0]?.duration || 1`. -/
def sttsEntries (ds : List Nat) : List (Nat × Nat) :=
  sttsLoop ds (match ds with | [] => 1 | d :: _ => if d = 0 then 1 else d) 0

/-- Re-expansion of run-length `(count, duration)` entries. -/
def sttsExpand (es : List (Nat × Nat)) : List Nat :=
  (es.map fun e => List.replicate e.1 e.2).flatten

/-- The analogous run-length loop of `buildCtts`
(`src/content.js:1110-1122`) over per-sample composition offsets
`(s.cts || 0) - (s.dts || 0)`; entries are `(count, offset)`. -/
def cttsLoop : List Int → Int → Nat → List (Nat × Int)
  | [], cur, count => if 0 < count then [(count, cur)] else []
  | d :: rest, cur, count =>
    if d = cur then cttsLoop rest cur (count + 1)
    else (count, cur) :: cttsLoop rest d 1

/-- The ctts entry list; the initial run offset comes from the first
sample (0 for an empty list). -/
def cttsEntries (ds : List Int) : List (Nat × Int) :=
  cttsLoop ds (match ds with | [] => 0 | d :: _ => d) 0

/-- 1-indexed positions of sync samples (`src/content.js:1039-1044`). -/
def syncPosAux : List MSample → Nat → List Nat
  | [], _ => []
  | s :: rest, i =>
    if s.is_sync then (i + 1) :: syncPosAux rest (i + 1) else syncPosAux rest (i + 1)

/-- `syncSamples` for a sample list. -/
def syncPositions (ss : List MSample) : List Nat := syncPosAux ss 0

/-- `makeBox(type, content)` (`src/content.js:449` / `src/content.js:804`):
a length-prefixed box, size field first, four type bytes, then content. -/
def makeBox (typ content : Bytes) : Bytes :=
  u32be (8 + content.length) ++ typ ++ content

/-- `buildStss(samples)` (`src/content.js:1038`): `none` when no sample
or every sample is sync (the table would be redundant), otherwise the
serialized 1-indexed sync-sample table. -/
def stssOpt (ss : List MSample) : Option Bytes :=
  if (syncPositions ss).length = 0 ∨ (syncPositions ss).length = ss.length then none
  else
    some (makeBox STSS (zeros 4 ++ u32be (syncPositions ss).length ++
      ((syncPositions ss).map u32be).flatten))

/-- Serialized stts box from the entry list. -/
def sttsBox (ss : List MSample) : Bytes :=
  makeBox STTS (zeros 4 ++ u32be (sttsEntries (ss.map (·.duration))).length ++
    ((sttsEntries (ss.map (·.duration))).map fun e => u32be e.1 ++ u32be e.2).flatten)

/-- Serialized stsc box: a single chunk holding all `n` samples. -/
def stscBox (n : Nat) : Bytes :=
  makeBox STSC (zeros 4 ++ u32be 1 ++ u32be 1 ++ u32be n ++ u32be 1)

/-- Serialized stsz box: variable sizes, one 32-bit size per sample. -/
def stszBox (ss : List MSample) : Bytes :=
  makeBox STSZ (zeros 8 ++ u32be ss.length ++ (ss.map fun s => u32be (sampleSize s)).flatten)

/-- Serialized stco box: a single chunk offset. -/
def stcoBox (off : Nat) : Bytes :=
  makeBox STCO (zeros 4 ++ u32be 1 ++ u32be off)

/-- `buildCtts(samples)` (`src/content.js:1094`): `none` when every
sample has `cts == dts`, else the run-length table with signed offsets. -/
def cttsOpt (ss : List MSample) : Option Bytes :=
  if ss.all (fun s => s.cts == s.dts) then none
  else
    some (makeBox CTTS (zeros 4 ++
      u32be (cttsEntries (ss.map fun s => s.cts - s.dts)).length ++
      ((cttsEntries (ss.map fun s => s.cts - s.dts)).map
        fun e => u32be e.1 ++ i32be e.2).flatten))

/-- `Math.round(num / den)` on nonnegative values: `floor(x + 1/2)`
computed exactly as `(2*num + den) / (2*den)` in `Nat` (the JS double
quotient is exact at the reachable magnitudes; for `den = 0`, where JS
stores 0 for the resulting `NaN`, `Nat` division by zero gives 0 too). -/
def jsRoundRatio (num den : Nat) : Nat := (2 * num + den) / (2 * den)

/-- tkhd content (84 bytes): flags 3, track_ID at 12, duration at 20,
volume at 36 (audio only), identity matrix, 16.16 width/height
(`track.width << 16` coerced mod `2^32` by the store). -/
def tkhdContent (t : MTrack) (dur : Nat) : Bytes :=
  u32be 3 ++ zeros 8 ++ u32be t.id ++ zeros 4 ++ u32be dur ++ zeros 12 ++
    u16be (if t.isVideo then 0 else 0x100) ++ zeros 2 ++ u32be 0x10000 ++ zeros 12 ++
    u32be 0x10000 ++ zeros 12 ++ u32be 0x40000000 ++
    u32be (t.width * 65536) ++ u32be (t.height * 65536)

/-- mdhd content (24 bytes): timescale, duration, language `und`. -/
def mdhdContent (ts dur : Nat) : Bytes :=
  zeros 12 ++ u32be ts ++ u32be dur ++ u16be 0x55C4 ++ u16be 0

/-- hdlr box: handler type `vide`/`soun` and handler name. -/
def hdlrBox (isVideo : Bool) : Bytes :=
  makeBox HDLR (zeros 8 ++
    (if isVideo then [118, 105, 100, 101] else [115, 111, 117, 110]) ++ zeros 12 ++
    (if isVideo then [86, 105, 100, 101, 111, 72, 97, 110, 100, 108, 101, 114]
     else [83, 111, 117, 110, 100, 72, 97, 110, 100, 108, 101, 114]) ++ zeros 1)

/-- vmhd box (video media header, flags 1). -/
def vmhdBox : Bytes := makeBox VMHD [0, 0, 0, 1, 0, 0, 0, 0, 0, 0, 0, 0]

/-- smhd box (empty sound media header). -/
def smhdBox : Bytes := makeBox SMHD (zeros 8)

/-- dinf box holding a dref with a single self-contained `url ` entry. -/
def dinfBox : Bytes :=
  makeBox DINF (makeBox DREF ([0, 0, 0, 0, 0, 0, 0, 1] ++ makeBox URLB [0, 0, 0, 1]))

/-- stsd for `buildMP4WithRawStsd` (`src/content.js:561`): the raw copied
box, or a minimal empty stsd. -/
def stsdR (t : MTrack) : Bytes := t.rawStsd.getD (makeBox STSD (zeros 8))

/-- stsd for `buildMP4File` (`src/content.js:968`): the serialized
demuxer entry wrapped with entry count 1 (serialization itself is done by
the external MP4Box writer; `stsdEntry` holds its output), or the minimal
empty stsd. -/
def stsdF (t : MTrack) : Bytes :=
  match t.stsdEntry with
  | some e => makeBox STSD (zeros 4 ++ u32be 1 ++ e)
  | none => makeBox STSD (zeros 8)

/-- The sample-table box sequence `[stsd, stts, stsc, stsz, stco]` plus
the optional video-only stss and the optional ctts, in source order. -/
def stblParts (stsd : Bytes) (t : MTrack) (off : Nat) : List Bytes :=
  [stsd, sttsBox t.samples, stscBox t.samples.length, stszBox t.samples, stcoBox off] ++
    (if t.isVideo then (stssOpt t.samples).toList else []) ++ (cttsOpt t.samples).toList

/-- The trak assembly shared verbatim by `buildTrak`
(`src/content.js:514-666`) and `buildTrakWithOffset`
(`src/content.js:1299-1341`), parameterized by the stsd box. -/
def buildTrakCore (stsd : Bytes) (t : MTrack) (off : Nat) : Bytes :=
  makeBox TRAK
    (makeBox TKHD (tkhdContent t (jsRoundRatio (t.duration * 1000) t.timescale)) ++
      makeBox MDIA
        (makeBox MDHD (mdhdContent t.timescale t.duration) ++ hdlrBox t.isVideo ++
          makeBox MINF
            ((if t.isVideo then vmhdBox else smhdBox) ++ dinfBox ++
              makeBox STBL (stblParts stsd t off).flatten)))

/-- `buildTrak(track, dataOffset)` of `buildMP4WithRawStsd`. -/
def buildTrakR (t : MTrack) (off : Nat) : Bytes := buildTrakCore (stsdR t) t off

/-- `buildTrakWithOffset(track, 1000, dataOffset)` of `buildMP4File`. -/
def buildTrakF (t : MTrack) (off : Nat) : Bytes := buildTrakCore (stsdF t) t off

/-- Total payload bytes of a track (`if (s.data) size += byteLength`). -/
def trackDataSize (t : MTrack) : Nat := (t.samples.map sampleSize).sum

/-- A track's contiguous payload run inside the media-data box. -/
def trackData (t : MTrack) : Bytes := (t.samples.filterMap (·.data)).flatten

/-- The media-data content: all tracks' payloads in order
(`src/content.js:504-511` / `src/content.js:1246-1262`). -/
def mdatPayload (tracks : List MTrack) : Bytes := (tracks.map trackData).flatten

/-- ftyp of `buildMP4WithRawStsd` (brands isom/iso2/avc1). -/
def ftypR : Bytes :=
  makeBox FTYP ([105, 115, 111, 109] ++ u32be 0x200 ++ [105, 115, 111, 109] ++
    [105, 115, 111, 50] ++ [97, 118, 99, 49])

/-- ftyp of `buildMP4File` (brands isom/iso2/mp41). -/
def ftypF : Bytes :=
  makeBox FTYP ([105, 115, 111, 109] ++ u32be 0x200 ++ [105, 115, 111, 109] ++
    [105, 115, 111, 50] ++ [109, 112, 52, 49])

/-- The movie-duration maximum as an exact ratio: `d = t.duration * 1000
/ t.timescale` folded with `if (d > maxDuration)`, the comparison done by
cross-multiplication.  (Tracks with a zero timescale, where the JS double
becomes `Infinity`/`NaN`, are outside the model.) -/
def maxDurP (tracks : List MTrack) : Nat × Nat :=
  tracks.foldl
    (fun m t =>
      if m.1 * t.timescale < t.duration * 1000 * m.2 then (t.duration * 1000, t.timescale)
      else m)
    (0, 1)

/-- mvhd content (100 bytes): movie timescale 1000, rounded maximum
duration, unity rate/volume, identity matrix, next-track-ID. -/
def mvhdContent (ts dur nextId : Nat) : Bytes :=
  zeros 12 ++ u32be ts ++ u32be dur ++ u32be 0x10000 ++ u16be 0x100 ++ zeros 10 ++
    u32be 0x10000 ++ zeros 12 ++ u32be 0x10000 ++ zeros 12 ++ u32be 0x40000000 ++
    zeros 24 ++ u32be nextId

/-- The mvhd box both builders produce for a track list. -/
def mvhdBoxOf (tracks : List MTrack) : Bytes :=
  makeBox MVHD
    (mvhdContent 1000 (jsRoundRatio (maxDurP tracks).1 (maxDurP tracks).2) (tracks.length + 1))

/-- The second-pass trak list: each track is rebuilt at the running
offset, which advances by the track's payload size
(`src/content.js:679-690` / `src/content.js:1283-1297`). -/
def finalTraksFrom (build : MTrack → Nat → Bytes) :
    List MTrack → Nat → List Bytes
  | [], _ => []
  | t :: ts, off => build t off :: finalTraksFrom build ts (off + trackDataSize t)

/-- First-pass media-data start of `buildMP4WithRawStsd`
(`src/content.js:673`): `ftyp.length + tempMoov.length + 8`, with the
measuring moov built at placeholder offset 0. -/
def mdatStartR (tracks : List MTrack) : Nat :=
  ftypR.length +
    (makeBox MOOV (mvhdBoxOf tracks ++ (tracks.map fun t => buildTrakR t 0).flatten)).length + 8

/-- `buildMP4WithRawStsd(tracks, fileInfo)` (`src/content.js:448`). -/
def buildMP4WithRawStsd (tracks : List MTrack) : Bytes :=
  ftypR ++
    makeBox MOOV (mvhdBoxOf tracks ++
      (finalTraksFrom buildTrakR tracks (mdatStartR tracks)).flatten) ++
    makeBox MDAT (mdatPayload tracks)

/-- First-pass media-data start of `buildMP4File` (`src/content.js:1277`):
`ftyp.length + moovSize + 8`. -/
def mdatStartF (tracks : List MTrack) : Nat :=
  ftypF.length +
    (makeBox MOOV (mvhdBoxOf tracks ++ (tracks.map fun t => buildTrakF t 0).flatten)).length + 8

/-- `buildMP4File(tracks, fileInfo)` (`src/content.js:802`); the source's
dead intermediate recomputations (`moovPlaceholder`, `trackOffsets`) feed
nothing and are elided. -/
def buildMP4File (tracks : List MTrack) : Bytes :=
  ftypF ++
    makeBox MOOV (mvhdBoxOf tracks ++
      (finalTraksFrom buildTrakF tracks (mdatStartF tracks)).flatten) ++
    makeBox MDAT (mdatPayload tracks)

/-- Payload bytes of the tracks preceding track `i` (video first, then
audio, each one contiguous run). -/
def sumDataBefore (tracks : List MTrack) (i : Nat) : Nat :=
  ((tracks.take i).map trackDataSize).sum

/-! ## Track assembly of `buildOutput` (`src/content.js:375-417`) -/

/-- A demuxer-reported track description (from `fileInfo.tracks`). -/
structure DemuxTrack where
  id : Nat
  isVideo : Bool
  timescale : Nat
  duration : Nat
  width : Nat
  height : Nat

/-- `s.data && s.data.byteLength > 0`. -/
def validSample (s : MSample) : Bool :=
  match s.data with
  | some d => !d.isEmpty
  | none => false

/-- Recomputed duration (`src/content.js:397-401`): when the demuxer
reports 0, sum the filtered samples' durations. -/
def calcDuration (t : DemuxTrack) (fs : List MSample) : Nat :=
  if t.duration = 0 then (fs.map (·.duration)).sum else t.duration

/-- The push loop of `buildOutput`: skip tracks with no collected
samples, filter to valid samples, assign `id := tracks.length + 1` (a
running counter over the pushed tracks), attach the raw stsd by type. -/
def assignTracks (videoStsd audioStsd : Option Bytes) :
    List (DemuxTrack × List MSample) → Nat → List MTrack
  | [], _ => []
  | (t, ss) :: rest, n =>
    if ss.isEmpty then assignTracks videoStsd audioStsd rest n
    else
      { id := n, isVideo := t.isVideo, timescale := t.timescale,
        duration := calcDuration t (ss.filter validSample),
        width := t.width, height := t.height,
        samples := ss.filter validSample,
        rawStsd := if t.isVideo then videoStsd else audioStsd,
        stsdEntry := none } :: assignTracks videoStsd audioStsd rest (n + 1)

/-- `tracks.sort((a, b) => (a.type === 'video' ? -1 : 1))`
(`src/content.js:417`): video tracks before the rest.  For the reachable
track lists (at most one video and one audio track) the JS sort produces
exactly this. -/
def sortVideoFirst (l : List MTrack) : List MTrack :=
  l.filter (·.isVideo) ++ l.filter fun t => !t.isVideo

/-- The track list handed to `buildMP4WithRawStsd` by `buildOutput`. -/
def buildOutputTracks (videoStsd audioStsd : Option Bytes)
    (info : List (DemuxTrack × List MSample)) : List MTrack :=
  sortVideoFirst (assignTracks videoStsd audioStsd info 1)

/-! ## Spec-side definitions and decidable helpers -/

/-- The merged-moov layout asserted by the spec for the mvex path:
`[bytes before mvex] + [patched audio trak] + [mvex with patched trex]`,
with the leading size field overwritten with the total.  Stated from the
spec's words, to be compared with `createMergedMoov`. -/
def specMergedMoov (vMoov tc tx : Bytes) (off sz : Nat) : Bytes :=
  writeU32
    (jsSlice vMoov 0 off ++ tc ++
      writeU32 (jsSlice vMoov off (off + sz) ++ updateTrackIdInTrex tx 2) 0
        (sz + tx.length)) 0
    (off + tc.length + (sz + tx.length))

/-- Adjacency of parsed boxes: each box starts where the previous ends. -/
def chainedB : List BoxHeader → Bool
  | [] => true
  | [_] => true
  | x :: y :: r => (y.offset == x.offset + x.size) && chainedB (y :: r)

/-- Every parsed box has size at least 8. -/
def sizesOkB (l : List BoxHeader) : Bool := l.all fun bx => 8 ≤ bx.size

/-- Total number of samples delivered for track `id` across a list of
`onSamples` events. -/
def deliveredTo (events : List (Nat × List Nat)) (id : Nat) : Nat :=
  ((events.filter fun e => e.1 == id).map fun e => e.2.length).sum

/-- Projection out of the embedded exception monad. -/
def exOk {α : Type} : Except Unit α → Option α
  | .ok a => some a
  | .error _ => none

/-! ## Concrete inputs for counterexamples and witnesses -/

/-- A minimal trak box (32 bytes) holding a version-0 tkhd whose
track_ID is `id`. -/
def miniTrak (id : Nat) : Bytes :=
  [0, 0, 0, 32] ++ TRAK ++ ([0, 0, 0, 24] ++ TKHD ++ zeros 12 ++ u32be id)

/-- A minimal moov (40 bytes) holding `miniTrak id`. -/
def miniMoov (id : Nat) : Bytes := [0, 0, 0, 40] ++ MOOV ++ miniTrak id

/-- A minimal 8-byte ftyp box. -/
def miniFtyp : Bytes := [0, 0, 0, 8] ++ FTYP

/-- A 16-byte sidx box with reference_ID 7. -/
def miniSidx7 : Bytes := [0, 0, 0, 16] ++ SIDX ++ zeros 4 ++ u32be 7

/-- Video input for the mutation evaluation: ftyp + moov(track_ID 5). -/
def cexVideoData : Bytes := miniFtyp ++ miniMoov 5

/-- Audio input for the mutation evaluation: moov(track_ID 9) + sidx. -/
def cexAudioData : Bytes := miniMoov 9 ++ miniSidx7

/-- A 16-byte trex box with track_ID 3. -/
def miniTrex3 : Bytes := [0, 0, 0, 16] ++ TREX ++ zeros 4 ++ u32be 3

/-- A moov (64 bytes) holding `miniTrak 5` followed by an mvex wrapping
`miniTrex3`. -/
def miniMoovMvex : Bytes :=
  [0, 0, 0, 64] ++ MOOV ++ miniTrak 5 ++ ([0, 0, 0, 24] ++ MVEX ++ miniTrex3)

/-- A buffer truncated mid-box: a complete 8-byte `free` box followed by
a header declaring size 100 with no payload behind it. -/
def cexTruncated : Bytes := ([0, 0, 0, 8] ++ FREE) ++ ([0, 0, 0, 100] ++ MDAT)

/-- Two complete 8-byte boxes. -/
def cexTwoBoxes : Bytes := ([0, 0, 0, 8] ++ FTYP) ++ ([0, 0, 0, 8] ++ FREE)

/-- A concrete video track with two samples for witness evaluations. -/
def wTrack : MTrack :=
  { id := 1, isVideo := true, timescale := 1000, duration := 20, width := 2, height := 2,
    samples := [{ data := some [1, 2, 3], duration := 10, cts := 0, dts := 0, is_sync := true },
                { data := some [4, 5], duration := 10, cts := 0, dts := 0, is_sync := false }],
    rawStsd := some ([0, 0, 0, 16] ++ STSD ++ zeros 8),
    stsdEntry := some (zeros 8) }

/-- A concrete demuxer video track description for witness evaluations. -/
def wDemuxVideo : DemuxTrack :=
  { id := 7, isVideo := true, timescale := 1000, duration := 20, width := 2, height := 2 }

/-- A concrete demuxer audio track description for witness evaluations. -/
def wDemuxAudio : DemuxTrack :=
  { id := 3, isVideo := false, timescale := 48000, duration := 960, width := 0, height := 0 }

/-- A sample with a one-byte payload. -/
def wSample : MSample :=
  { data := some [9], duration := 10, cts := 0, dts := 0, is_sync := true }

/-! # Theorems

Helper lemmas about the byte primitives first, then one theorem per
specification claim. -/

theorem getD_set_self : ∀ (l : Bytes) (i v : Nat), i < l.length → (l.set i v).getD i 0 = v := by
  intro l
  induction l with
  | nil => intro i v h; simp at h
  | cons a t ih =>
    intro i v h
    cases i with
    | zero => simp
    | succ n =>
      simp only [List.set_cons_succ, List.getD_cons_succ]
      exact ih n v (by simpa using h)

theorem getD_set_other : ∀ (l : Bytes) (i j v : Nat), i ≠ j →
    (l.set i v).getD j 0 = l.getD j 0 := by
  intro l
  induction l with
  | nil => intro i j v _; rfl
  | cons a t ih =>
    intro i j v hij
    cases i with
    | zero =>
      cases j with
      | zero => exact absurd rfl hij
      | succ m => simp
    | succ n =>
      cases j with
      | zero => simp
      | succ m =>
        simp only [List.set_cons_succ, List.getD_cons_succ]
        exact ih n m v (by omega)

theorem getD_append_lt : ∀ (x y : Bytes) (i : Nat), i < x.length →
    (x ++ y).getD i 0 = x.getD i 0 := by
  intro x
  induction x with
  | nil => intro y i h; simp at h
  | cons a t ih =>
    intro y i h
    cases i with
    | zero => simp
    | succ n =>
      simp only [List.cons_append, List.getD_cons_succ]
      exact ih y n (by simpa using h)

theorem getD_append_ge : ∀ (x y : Bytes) (i : Nat), x.length ≤ i →
    (x ++ y).getD i 0 = y.getD (i - x.length) 0 := by
  intro x
  induction x with
  | nil => intro y i _; simp
  | cons a t ih =>
    intro y i h
    cases i with
    | zero => simp at h
    | succ n =>
      simp only [List.cons_append, List.getD_cons_succ, List.length_cons]
      rw [ih y n (by simpa using h)]
      congr 1
      omega

@[simp] theorem length_zeros (n : Nat) : (zeros n).length = n := by
  simp [zeros]

@[simp] theorem length_u32be (v : Nat) : (u32be v).length = 4 := rfl

@[simp] theorem length_u16be (v : Nat) : (u16be v).length = 2 := rfl

@[simp] theorem length_i32be (v : Int) : (i32be v).length = 4 := rfl

@[simp] theorem length_writeU32 (b : Bytes) (off v : Nat) :
    (writeU32 b off v).length = b.length := by
  simp [writeU32]

theorem length_jsSlice (b : Bytes) (s e : Nat) :
    (jsSlice b s e).length = min e b.length - s := by
  simp [jsSlice]

@[simp] theorem length_updateTrackIdInTrex (b : Bytes) (id : Nat) :
    (updateTrackIdInTrex b id).length = b.length := by
  unfold updateTrackIdInTrex
  split <;> simp

@[simp] theorem length_updateTrackIdInSidx (b : Bytes) (id : Nat) :
    (updateTrackIdInSidx b id).length = b.length := by
  unfold updateTrackIdInSidx
  split <;> simp

theorem u32_digits (v : Nat) :
    v / 2 ^ 24 % 256 * 2 ^ 24 + v / 2 ^ 16 % 256 * 2 ^ 16 +
      v / 2 ^ 8 % 256 * 2 ^ 8 + v % 256 = v % 2 ^ 32 := by
  omega

theorem readU32_u32be_append (v : Nat) (y : Bytes) :
    readU32 (u32be v ++ y) 0 = v % 2 ^ 32 := by
  simp [readU32, u32be]
  omega

theorem readU32_u32be (v : Nat) : readU32 (u32be v) 0 = v % 2 ^ 32 := by
  simp [readU32, u32be]
  omega

theorem readU32_append_ge (x y : Bytes) (i : Nat) (h : x.length ≤ i) :
    readU32 (x ++ y) i = readU32 y (i - x.length) := by
  unfold readU32
  rw [getD_append_ge x y i h, getD_append_ge x y (i + 1) (by omega),
    getD_append_ge x y (i + 2) (by omega), getD_append_ge x y (i + 3) (by omega),
    show i + 1 - x.length = i - x.length + 1 from by omega,
    show i + 2 - x.length = i - x.length + 2 from by omega,
    show i + 3 - x.length = i - x.length + 3 from by omega]

theorem getD_writeU32_outside (b : Bytes) (off v i : Nat)
    (h : i < off ∨ off + 4 ≤ i) : (writeU32 b off v).getD i 0 = b.getD i 0 := by
  unfold writeU32
  rw [getD_set_other _ _ _ _ (by omega), getD_set_other _ _ _ _ (by omega),
    getD_set_other _ _ _ _ (by omega), getD_set_other _ _ _ _ (by omega)]

theorem readU32_writeU32 (b : Bytes) (off v : Nat) (h : off + 4 ≤ b.length) :
    readU32 (writeU32 b off v) off = v % 2 ^ 32 := by
  unfold readU32 writeU32
  rw [getD_set_other _ _ _ _ (by omega), getD_set_other _ _ _ _ (by omega),
    getD_set_other _ _ _ _ (by omega),
    getD_set_self _ _ _ (by omega)]
  rw [show ((((b.set off (v / 2 ^ 24 % 256)).set (off + 1) (v / 2 ^ 16 % 256)).set
      (off + 2) (v / 2 ^ 8 % 256)).set (off + 3) (v % 256)).getD (off + 1) 0 =
      v / 2 ^ 16 % 256 from by
    rw [getD_set_other _ _ _ _ (by omega), getD_set_other _ _ _ _ (by omega),
      getD_set_self _ _ _ (by simpa using by omega)]]
  rw [show ((((b.set off (v / 2 ^ 24 % 256)).set (off + 1) (v / 2 ^ 16 % 256)).set
      (off + 2) (v / 2 ^ 8 % 256)).set (off + 3) (v % 256)).getD (off + 2) 0 =
      v / 2 ^ 8 % 256 from by
    rw [getD_set_other _ _ _ _ (by omega),
      getD_set_self _ _ _ (by simpa using by omega)]]
  rw [getD_set_self _ _ _ (by simpa using by omega)]
  omega

theorem readU32_writeU32_outside (b : Bytes) (off v i : Nat)
    (h : i + 4 ≤ off ∨ off + 4 ≤ i) : readU32 (writeU32 b off v) i = readU32 b i := by
  unfold readU32
  rw [getD_writeU32_outside _ _ _ _ (by omega), getD_writeU32_outside _ _ _ _ (by omega),
    getD_writeU32_outside _ _ _ _ (by omega), getD_writeU32_outside _ _ _ _ (by omega)]

theorem drop_append_length : ∀ (x y : Bytes), (x ++ y).drop x.length = y := by
  intro x
  induction x with
  | nil => intro y; simp
  | cons a t ih => intro y; simp [ih y]

theorem drop_set_lt : ∀ (l : Bytes) (i v n : Nat), i < n → (l.set i v).drop n = l.drop n := by
  intro l
  induction l with
  | nil => intro i v n _; rfl
  | cons a t ih =>
    intro i v n h
    cases i with
    | zero =>
      cases n with
      | zero => omega
      | succ m => simp
    | succ j =>
      cases n with
      | zero => omega
      | succ m =>
        simp only [List.set_cons_succ, List.drop_succ_cons]
        exact ih j v m (by omega)

theorem drop_writeU32_le (b : Bytes) (off v n : Nat) (h : off + 4 ≤ n) :
    (writeU32 b off v).drop n = b.drop n := by
  unfold writeU32
  rw [drop_set_lt _ _ _ _ (by omega), drop_set_lt _ _ _ _ (by omega),
    drop_set_lt _ _ _ _ (by omega), drop_set_lt _ _ _ _ (by omega)]

theorem sub_append_left (x y l : Bytes) (h : l <:+: y) : l <:+: x ++ y := by
  obtain ⟨s, t, hst⟩ := h
  exact ⟨x ++ s, t, by rw [← hst]; simp⟩

theorem sub_append_right (x y l : Bytes) (h : l <:+: x) : l <:+: x ++ y := by
  obtain ⟨s, t, hst⟩ := h
  exact ⟨s, t ++ y, by rw [← hst]; simp⟩

theorem sub_makeBox (t c l : Bytes) (h : l <:+: c) : l <:+: makeBox t c := by
  unfold makeBox
  exact sub_append_left (u32be (8 + c.length)) (t ++ c) l (sub_append_left t c l h)

theorem sub_refl (l : Bytes) : l <:+: l := ⟨[], [], by simp⟩

@[simp] theorem length_TRAK : TRAK.length = 4 := rfl
@[simp] theorem length_TKHD : TKHD.length = 4 := rfl
@[simp] theorem length_MDIA : MDIA.length = 4 := rfl
@[simp] theorem length_MDHD : MDHD.length = 4 := rfl
@[simp] theorem length_HDLR : HDLR.length = 4 := rfl
@[simp] theorem length_MINF : MINF.length = 4 := rfl
@[simp] theorem length_STBL : STBL.length = 4 := rfl
@[simp] theorem length_STSD : STSD.length = 4 := rfl
@[simp] theorem length_STTS : STTS.length = 4 := rfl
@[simp] theorem length_STSC : STSC.length = 4 := rfl
@[simp] theorem length_STSZ : STSZ.length = 4 := rfl
@[simp] theorem length_STCO : STCO.length = 4 := rfl
@[simp] theorem length_STSS : STSS.length = 4 := rfl
@[simp] theorem length_CTTS : CTTS.length = 4 := rfl
@[simp] theorem length_VMHD : VMHD.length = 4 := rfl
@[simp] theorem length_SMHD : SMHD.length = 4 := rfl
@[simp] theorem length_DINF : DINF.length = 4 := rfl
@[simp] theorem length_DREF : DREF.length = 4 := rfl
@[simp] theorem length_URLB : URLB.length = 4 := rfl
@[simp] theorem length_MOOV : MOOV.length = 4 := rfl
@[simp] theorem length_MVHD : MVHD.length = 4 := rfl
@[simp] theorem length_MDAT : MDAT.length = 4 := rfl
@[simp] theorem length_FTYP : FTYP.length = 4 := rfl

@[simp] theorem length_makeBox (t c : Bytes) (h : t.length = 4) :
    (makeBox t c).length = 8 + c.length := by
  simp [makeBox, h]
  omega

/-- Fuel does not matter for the box scan once it exceeds the remaining
buffer length: every accepted box advances the offset by at least 8. -/
theorem parseBoxesT_fuel (b : Bytes) : ∀ f1 f2 off, b.length - off < f1 →
    b.length - off < f2 → parseBoxesT b f1 off = parseBoxesT b f2 off := by
  intro f1
  induction f1 with
  | zero => intro f2 off h1 _; exact absurd h1 (Nat.not_lt_zero _)
  | succ n ih =>
    intro f2 off h1 h2
    cases f2 with
    | zero => exact absurd h2 (Nat.not_lt_zero _)
    | succ m =>
      simp only [parseBoxesT]
      by_cases hoff : off < b.length
      · simp only [if_pos hoff]
        cases hr : readBoxHeader b off with
        | error e => rfl
        | ok obx =>
          cases obx with
          | none => rfl
          | some bx =>
            by_cases hsz : bx.size < 8
            · simp [hsz]
            · have h3 := ih m (off + bx.size) (by omega) (by omega)
              simp [hsz, h3]
      · simp [hoff]

theorem parseBoxesT_past (b : Bytes) : ∀ fuel off, b.length ≤ off →
    parseBoxesT b fuel off = .ok [] := by
  intro fuel off h
  cases fuel with
  | zero => rfl
  | succ n => simp [parseBoxesT, Nat.not_lt.mpr h]

/-- A found header records the offset it was read at. -/
theorem readBoxHeader_offset (b : Bytes) (off : Nat) (bx : BoxHeader)
    (h : readBoxHeader b off = .ok (some bx)) : bx.offset = off := by
  simp only [readBoxHeader] at h
  split at h
  · cases h
  · split at h
    · split at h
      · cases h; rfl
      · cases h
    · split at h
      · cases h; rfl
      · cases h; rfl

/-- Structural facts about the box scan, for any amount of fuel: every
returned box has size at least 8, consecutive boxes are adjacent (the
offset strictly advances by the size, at least 8 per step), and the first
box sits at the start offset. -/
theorem parseBoxesT_spec (b : Bytes) : ∀ fuel off l, parseBoxesT b fuel off = .ok l →
    sizesOkB l = true ∧ chainedB l = true ∧
      (l = [] ∨ ∃ bx rest, l = bx :: rest ∧ bx.offset = off) := by
  intro fuel
  induction fuel with
  | zero =>
    intro off l h
    cases h
    exact ⟨rfl, rfl, Or.inl rfl⟩
  | succ n ih =>
    intro off l h
    simp only [parseBoxesT] at h
    by_cases hoff : off < b.length
    swap
    · rw [if_neg hoff] at h
      cases h
      exact ⟨rfl, rfl, Or.inl rfl⟩
    · rw [if_pos hoff] at h
      cases hr : readBoxHeader b off with
      | error e => rw [hr] at h; cases h
      | ok obx =>
        rw [hr] at h
        cases obx with
        | none => cases h; exact ⟨rfl, rfl, Or.inl rfl⟩
        | some bx =>
          dsimp only at h
          by_cases hsz : bx.size < 8
          · rw [if_pos hsz] at h; cases h; exact ⟨rfl, rfl, Or.inl rfl⟩
          · rw [if_neg hsz] at h
            cases hrec : parseBoxesT b n (off + bx.size) with
            | error e => rw [hrec] at h; cases h
            | ok rest =>
              rw [hrec] at h
              cases h
              obtain ⟨hsizes, hchain, hhead⟩ := ih (off + bx.size) rest hrec
              refine ⟨?_, ?_, Or.inr ⟨bx, rest, rfl, readBoxHeader_offset b off bx hr⟩⟩
              · simp [sizesOkB] at hsizes ⊢
                exact ⟨by omega, hsizes⟩
              · cases rest with
                | nil => rfl
                | cons by2 r2 =>
                  rcases hhead with h0 | ⟨bx2, rest2, heq, hoff2⟩
                  · cases h0
                  · cases heq
                    simp only [chainedB, Bool.and_eq_true, beq_iff_eq]
                    refine ⟨?_, hchain⟩
                    rw [hoff2, readBoxHeader_offset b off bx hr]

/-- C10: `parseBoxes` terminates on every input.  In the embedding the
loop is fuel-bounded by `b.length + 1`, which always outlasts it because
— as proven here — every box the scan accepts has size at least 8, so
the offset strictly increases by at least 8 per recorded box
(`sizesOkB`/`chainedB`); and a header with computed size below 8, or a
not-found header (fewer than 8 bytes remaining), ends the loop
immediately with the boxes gathered so far. -/
theorem parseBoxes_termination_shape (b : Bytes) (l : List BoxHeader)
    (h : parseBoxes b = .ok l) :
    sizesOkB l = true ∧ chainedB l = true ∧
      (∀ off bx, off < b.length → readBoxHeader b off = .ok (some bx) → bx.size < 8 →
        parseBoxesFrom b off = .ok []) := by
  obtain ⟨h1, h2, _⟩ := parseBoxesT_spec b (b.length + 1) 0 l h
  refine ⟨h1, h2, ?_⟩
  intro off bx hoff hr hsz
  unfold parseBoxesFrom
  simp only [parseBoxesT, if_pos hoff, hr, if_pos hsz]

/-- Witness for C10 at a concrete two-box buffer. -/
theorem parseBoxes_termination_shape_witness :
    sizesOkB [⟨8, FTYP, 8, 0⟩, ⟨8, FREE, 8, 8⟩] = true ∧
      chainedB [⟨8, FTYP, 8, 0⟩, ⟨8, FREE, 8, 8⟩] = true := by
  have h := parseBoxes_termination_shape cexTwoBoxes
    [⟨8, FTYP, 8, 0⟩, ⟨8, FREE, 8, 8⟩] rfl
  exact ⟨h.1, h.2.1⟩

/-- C5 (counterexample): on a buffer truncated mid-box — an 8-byte `free`
box followed by a header declaring size 100 with nothing behind it —
`parseBoxes` returns TWO boxes: the complete one AND the truncated one
(sizes 8 and 100).  The claim says exactly the boxes found before the
truncation are returned, i.e. only the first. -/
theorem parseBoxes_truncated_counterexample :
    exOk (parseBoxes cexTruncated) =
      some [⟨8, FREE, 8, 0⟩, ⟨100, MDAT, 8, 8⟩] := by decide

/-- C5 (amended): when the scan meets a header whose declared size
overruns the buffer, it stops there without throwing and returns the
boxes found up to AND INCLUDING that truncated box; a computed size
below 8 ends the sequence (with the truncated box excluded); fewer than
8 remaining bytes yields the not-found header. -/
theorem parseBoxes_truncation_behavior :
    (∀ (b : Bytes) (off : Nat) (bx : BoxHeader), off < b.length →
        readBoxHeader b off = .ok (some bx) → 8 ≤ bx.size → b.length < off + bx.size →
        parseBoxesFrom b off = .ok [bx])
  ∧ (∀ (b : Bytes) (off : Nat) (bx : BoxHeader), off < b.length →
        readBoxHeader b off = .ok (some bx) → bx.size < 8 →
        parseBoxesFrom b off = .ok [])
  ∧ (∀ (b : Bytes) (off : Nat), b.length < off + 8 →
        readBoxHeader b off = .ok none) := by
  refine ⟨?_, ?_, ?_⟩
  · intro b off bx hoff hr h8 hover
    unfold parseBoxesFrom
    simp only [parseBoxesT, if_pos hoff, hr, if_neg (Nat.not_lt.mpr h8)]
    rw [parseBoxesT_past b b.length (off + bx.size) (by omega)]
  · intro b off bx hoff hr hsz
    unfold parseBoxesFrom
    simp only [parseBoxesT, if_pos hoff, hr, if_pos hsz]
  · intro b off h
    unfold readBoxHeader
    rw [if_pos h]

/-- Witness for the amended C5 on the concrete truncated buffer: the box
at offset 8 declares size 100, overrunning the 16-byte buffer, and the
scan from 8 returns exactly that box.  Also a not-found header at
offset 9. -/
theorem parseBoxes_truncation_behavior_witness :
    parseBoxesFrom cexTruncated 8 = .ok [⟨100, MDAT, 8, 8⟩] ∧
      readBoxHeader cexTruncated 9 = .ok none := by
  refine ⟨?_, ?_⟩
  · exact parseBoxes_truncation_behavior.1 cexTruncated 8 ⟨100, MDAT, 8, 8⟩
      (by decide) rfl (by decide) (by decide)
  · exact parseBoxes_truncation_behavior.2.2 cexTruncated 9 (by decide)

/-- C1: the fallback chain of `muxVideoAudio`.  The progressive build is
tried first and its result accepted exactly when it beats 90% of the
video input's size; otherwise (throw or implausible size) the fragmented
assembly is tried under the same check; if it also fails and the final
MP4Box rebuild throws, the raw video input bytes are returned — the call
never throws. -/
theorem muxVideoAudio_fallback_chain (v : Bytes) (p f t : Except Unit Bytes) :
    (∀ r, p = .ok r → 9 * v.length < 10 * r.length → muxVideoAudio v p f t = r)
  ∧ (∀ r, stratFails v p → f = .ok r → 9 * v.length < 10 * r.length →
      muxVideoAudio v p f t = r)
  ∧ (stratFails v p → stratFails v f → t = .error () → muxVideoAudio v p f t = v) := by
  have stage2 : ∀ r, f = .ok r → 9 * v.length < 10 * r.length → muxStage2 v f t = r := by
    intro r hf hsz
    simp [muxStage2, hf, if_pos hsz]
  have stage2fail : stratFails v f → t = .error () → muxStage2 v f t = v := by
    intro hf ht
    rcases hf with hf | ⟨r, hf, hle⟩
    · simp [muxStage2, hf, muxStage3, ht]
    · simp only [muxStage2, hf]
      rw [if_neg (by omega : ¬ 9 * v.length < 10 * r.length)]
      simp [muxStage3, ht]
  have toStage2 : stratFails v p → muxVideoAudio v p f t = muxStage2 v f t := by
    intro hp
    rcases hp with hp | ⟨r, hp, hle⟩
    · simp [muxVideoAudio, hp]
    · simp only [muxVideoAudio, hp]
      rw [if_neg (by omega : ¬ 9 * v.length < 10 * r.length)]
  refine ⟨?_, ?_, ?_⟩
  · intro r hp hsz
    simp [muxVideoAudio, hp, if_pos hsz]
  · intro r hp hf hsz
    rw [toStage2 hp]
    exact stage2 r hf hsz
  · intro hp hf ht
    rw [toStage2 hp]
    exact stage2fail hf ht

/-- Witness for C1: with a 10-byte video input, all three strategies
failing yields the raw video input; a fragmented result of 10 bytes
passes the 90% check after the progressive attempt threw. -/
theorem muxVideoAudio_fallback_chain_witness :
    muxVideoAudio (zeros 10) (.error ()) (.error ()) (.error ()) = zeros 10 ∧
      muxVideoAudio (zeros 10) (.error ()) (.ok (zeros 10)) (.error ()) = zeros 10 := by
  refine ⟨?_, ?_⟩
  · exact (muxVideoAudio_fallback_chain (zeros 10) (.error ()) (.error ()) (.error ())).2.2
      (Or.inl rfl) (Or.inl rfl) rfl
  · exact (muxVideoAudio_fallback_chain (zeros 10) (.error ()) (.ok (zeros 10))
      (.error ())).2.1 (zeros 10) (Or.inl rfl) rfl (by decide)

theorem sttsLoop_expand : ∀ (ds : List Nat) (cur count : Nat),
    sttsExpand (sttsLoop ds cur count) = List.replicate count cur ++ ds := by
  intro ds
  induction ds with
  | nil =>
    intro cur count
    by_cases h : 0 < count
    · simp [sttsLoop, sttsExpand, h]
    · simp only [sttsLoop, if_neg h]
      rw [show count = 0 from by omega]
      rfl
  | cons d rest ih =>
    intro cur count
    by_cases h : d = cur
    · subst h
      have hstep : sttsLoop (d :: rest) d count = sttsLoop rest d (count + 1) := by
        simp [sttsLoop]
      rw [hstep, ih d (count + 1), List.replicate_succ']
      simp
    · simp only [sttsLoop, if_neg h]
      simp only [sttsExpand, List.map_cons, List.flatten_cons]
      have hrec := ih d 1
      simp only [sttsExpand] at hrec
      rw [hrec]
      simp

/-- C8: the stts table run-length encodes consecutive equal durations
into `(count, duration)` entries whose re-expansion reproduces the
per-sample duration sequence exactly; durations `[10,10,5]` yield
entries `[(2,10),(1,5)]`. -/
theorem stts_roundtrip :
    (∀ ds : List Nat, sttsExpand (sttsEntries ds) = ds) ∧
      sttsEntries [10, 10, 5] = [(2, 10), (1, 5)] := by
  refine ⟨?_, by decide⟩
  intro ds
  unfold sttsEntries
  rw [sttsLoop_expand]
  simp

theorem syncPosAux_le : ∀ (ss : List MSample) (i : Nat),
    (syncPosAux ss i).length ≤ ss.length := by
  intro ss
  induction ss with
  | nil => intro i; simp [syncPosAux]
  | cons s rest ih =>
    intro i
    by_cases h : s.is_sync <;> simp [syncPosAux, h]
    · exact ih (i + 1)
    · exact Nat.le_succ_of_le (ih (i + 1))

theorem syncPosAux_all : ∀ (ss : List MSample) (i : Nat),
    (∀ s ∈ ss, s.is_sync = true) → (syncPosAux ss i).length = ss.length := by
  intro ss
  induction ss with
  | nil => intro i _; rfl
  | cons s rest ih =>
    intro i h
    have hs : s.is_sync = true := h s (by simp)
    simp [syncPosAux, hs]
    exact ih (i + 1) fun x hx => h x (by simp [hx])

theorem syncPosAux_none : ∀ (ss : List MSample) (i : Nat),
    (∀ s ∈ ss, s.is_sync = false) → syncPosAux ss i = [] := by
  intro ss
  induction ss with
  | nil => intro i _; rfl
  | cons s rest ih =>
    intro i h
    have hs : s.is_sync = false := h s (by simp)
    simp [syncPosAux, hs]
    exact ih (i + 1) fun x hx => h x (by simp [hx])

/-- C9: the builder emits no stss box when every sample is sync or no
sample is sync; an stss box appears only when the sync samples form a
proper non-empty subset of the track's samples. -/
theorem stss_omission :
    (∀ ss : List MSample, (∀ s ∈ ss, s.is_sync = true) → stssOpt ss = none)
  ∧ (∀ ss : List MSample, (∀ s ∈ ss, s.is_sync = false) → stssOpt ss = none)
  ∧ (∀ (ss : List MSample) (bx : Bytes), stssOpt ss = some bx →
      0 < (syncPositions ss).length ∧ (syncPositions ss).length < ss.length) := by
  refine ⟨?_, ?_, ?_⟩
  · intro ss h
    unfold stssOpt
    rw [if_pos (Or.inr
      (show (syncPositions ss).length = ss.length from syncPosAux_all ss 0 h))]
  · intro ss h
    unfold stssOpt
    rw [if_pos (Or.inl (show (syncPositions ss).length = 0 from by
      rw [show syncPositions ss = ([] : List Nat) from syncPosAux_none ss 0 h]; rfl))]
  · intro ss bx h
    unfold stssOpt at h
    split at h
    · cases h
    · rename_i hcond
      push_neg at hcond
      have hle := syncPosAux_le ss 0
      exact ⟨Nat.pos_of_ne_zero hcond.1, by
        rw [syncPositions] at hcond ⊢
        omega⟩

/-- Witness for C9 at concrete sample lists: all-sync and none-sync lists
get no stss; a mixed two-sample list gets one whose sync count is a
proper non-empty subset. -/
theorem stss_omission_witness :
    stssOpt [wSample] = none ∧
      stssOpt [{ wSample with is_sync := false }] = none ∧
      (0 < (syncPositions [wSample, { wSample with is_sync := false }]).length ∧
        (syncPositions [wSample, { wSample with is_sync := false }]).length < 2) := by
  refine ⟨?_, ?_, ?_⟩
  · exact stss_omission.1 [wSample] (by decide)
  · exact stss_omission.2.1 [{ wSample with is_sync := false }] (by decide)
  · exact stss_omission.2.2 [wSample, { wSample with is_sync := false }]
      ([0, 0, 0, 20] ++ STSS ++ ([0, 0, 0, 0] ++ [0, 0, 0, 1] ++ [0, 0, 0, 1]))
      (by decide)

/-- C4 (counterexample): in `defragmentWithRawStsd`, a track declaring 10
samples of which only 8 arrive before the timeout makes the collection
REJECT with a Timeout error — it does not complete with the partial
result, contrary to the claim. -/
theorem defrag_timeout_counterexample :
    defragCollect [(1, 10)] [(1, List.replicate 8 0)] = Except.error () := rfl

theorem parseFileLoop_partial : ∀ (events : List (List Nat)) (acc : List Nat) (total : Nat),
    (acc ++ events.flatten).length < total → parseFileLoop total acc events = acc ++ events.flatten := by
  intro events
  induction events with
  | nil => intro acc total h; simp [parseFileLoop]
  | cons e rest ih =>
    intro acc total h
    simp only [List.flatten_cons] at h
    unfold parseFileLoop
    rw [if_neg (by simp at h ⊢; omega)]
    rw [ih (acc ++ e) total (by simp at h ⊢; omega)]
    simp

theorem lookup_init : ∀ (tracks : List (Nat × Nat)) (id : Nat),
    lookupSamples (initAcc tracks) id = [] := by
  intro tracks
  induction tracks with
  | nil => intro id; rfl
  | cons t ts ih =>
    intro id
    unfold lookupSamples initAcc at ih ⊢
    simp only [List.map_cons, List.find?_cons]
    cases h : ((t.1, ([] : List Nat)).1 == id)
    · exact ih id
    · rfl

theorem lookupSamples_cons (x : Nat × List Nat) (xs : List (Nat × List Nat)) (id : Nat) :
    lookupSamples (x :: xs) id = if x.1 = id then x.2 else lookupSamples xs id := by
  unfold lookupSamples
  by_cases h : x.1 = id
  · rw [List.find?_cons_of_pos _ (by simp [h]), if_pos h]
  · rw [List.find?_cons_of_neg _ (by simp [h]), if_neg h]

theorem lookup_deliver_le (id idE : Nat) (batch : List Nat) :
    ∀ acc : List (Nat × List Nat),
      (lookupSamples (deliverBatch acc idE batch) id).length ≤
        (lookupSamples acc id).length + (if idE = id then batch.length else 0) := by
  intro acc
  induction acc with
  | nil => simp [deliverBatch, lookupSamples]
  | cons p ps ih =>
    have hstep : deliverBatch (p :: ps) idE batch =
        (if p.1 = idE then (p.1, p.2 ++ batch) else p) :: deliverBatch ps idE batch := by
      simp [deliverBatch]
    rw [hstep, lookupSamples_cons, lookupSamples_cons]
    by_cases hpe : p.1 = idE
    · rw [if_pos hpe]
      by_cases hp : p.1 = id
      · have hide : idE = id := hpe.symm.trans hp
        simp [hp, hide]
      · have hide : ¬ idE = id := fun hh => hp (hpe.trans hh)
        simp only [hp, hide, if_neg, if_false]
        simpa [hide] using ih
    · rw [if_neg hpe]
      by_cases hp : p.1 = id
      · simp [hp]
      · simp only [hp, if_false]
        exact ih

theorem collectLoop_timeout (tracks : List (Nat × Nat)) (id nb : Nat)
    (hmem : (id, nb) ∈ tracks) :
    ∀ (events : List (Nat × List Nat)) (acc : List (Nat × List Nat)),
      (lookupSamples acc id).length + deliveredTo events id < nb →
      collectLoop tracks acc events = none := by
  intro events
  induction events with
  | nil => intro acc _; rfl
  | cons e rest ih =>
    intro acc h
    have hdel : deliveredTo (e :: rest) id =
        (if e.1 = id then e.2.length else 0) + deliveredTo rest id := by
      by_cases he : e.1 = id <;> simp [deliveredTo, List.filter_cons, he]
    have hlook := lookup_deliver_le id e.1 e.2 acc
    have hlen : (lookupSamples (deliverBatch acc e.1 e.2) id).length +
        deliveredTo rest id < nb := by
      rw [hdel] at h
      by_cases he : e.1 = id
      · rw [if_pos he] at h hlook; omega
      · rw [if_neg he] at h hlook; omega
    have hnotdone : ¬ allDoneB tracks (deliverBatch acc e.1 e.2) = true := by
      intro hall
      rw [allDoneB, List.all_eq_true] at hall
      have := hall (id, nb) hmem
      simp at this
      omega
    simp only [collectLoop]
    rw [if_neg hnotdone]
    exact ih _ hlen

theorem scanSubT_bounds (b typ : Bytes) : ∀ fuel off p, scanSubT b typ fuel off = some p →
    off ≤ p ∧ 8 ≤ readU32 b p ∧ p + readU32 b p ≤ b.length := by
  intro fuel
  induction fuel with
  | zero => intro off p h; cases h
  | succ n ih =>
    intro off p h
    simp only [scanSubT] at h
    by_cases hoff : off < b.length - 8
    swap
    · rw [if_neg hoff] at h; cases h
    · rw [if_pos hoff] at h
      by_cases hbad : readU32 b off < 8 ∨ b.length < off + readU32 b off
      · rw [if_pos hbad] at h; cases h
      · rw [if_neg hbad] at h
        by_cases hty : typeAt b off = typ
        · rw [if_pos hty] at h
          cases h
          push_neg at hbad
          exact ⟨Nat.le_refl _, by omega, by omega⟩
        · rw [if_neg hty] at h
          obtain ⟨h1, h2, h3⟩ := ih (off + readU32 b off) p h
          exact ⟨by omega, h2, h3⟩

theorem scanSub_bounds (b typ : Bytes) (off p : Nat) (h : scanSub b typ off = some p) :
    off ≤ p ∧ 8 ≤ readU32 b p ∧ p + readU32 b p ≤ b.length :=
  scanSubT_bounds b typ (b.length + 1) off p h

/-- A positive `findSubBoxWithOffset` result records the scan offset, the
size read there, and the slice, and sits fully inside the buffer past
the parent header. -/
theorem findSubBoxWithOffset_some (b typ : Bytes) (sb : SubBox)
    (h : findSubBoxWithOffset b typ = some sb) :
    scanSub b typ 8 = some sb.offset ∧ sb.size = readU32 b sb.offset ∧
      sb.data = jsSlice b sb.offset (sb.offset + sb.size) ∧
      8 ≤ sb.offset ∧ 8 ≤ sb.size ∧ sb.offset + sb.size ≤ b.length := by
  unfold findSubBoxWithOffset at h
  cases hs : scanSub b typ 8 with
  | none => rw [hs] at h; cases h
  | some p =>
    rw [hs] at h
    cases h
    obtain ⟨h1, h2, h3⟩ := scanSub_bounds b typ 8 p hs
    exact ⟨rfl, rfl, rfl, h1, h2, h3⟩

/-- C6: with an mvex in the video moov and an audio trex supplied, the
merged moov is exactly `[bytes before mvex] + [patched audio trak] +
[new mvex]` with the leading size field overwritten (`specMergedMoov`
spells out that spec-side layout); its total length is the sum of the
three parts, the leading 32-bit size field reads back as that total, and
the bytes after the inserted audio trak are exactly the new mvex — so
mvex is the last top-level child, after the audio trak. -/
theorem merged_moov_layout (vMoov aTrak tx tc : Bytes) (mv : SubBox)
    (hfind : findSubBoxWithOffset vMoov MVEX = some mv)
    (hupd : updateTrackIdInTrak aTrak 2 = .ok tc) :
    createMergedMoov vMoov aTrak (some tx) =
        .ok (specMergedMoov vMoov tc tx mv.offset mv.size)
  ∧ (specMergedMoov vMoov tc tx mv.offset mv.size).length =
      mv.offset + tc.length + (mv.size + tx.length)
  ∧ readU32 (specMergedMoov vMoov tc tx mv.offset mv.size) 0 =
      (mv.offset + tc.length + (mv.size + tx.length)) % 2 ^ 32
  ∧ (specMergedMoov vMoov tc tx mv.offset mv.size).drop (mv.offset + tc.length) =
      writeU32 (jsSlice vMoov mv.offset (mv.offset + mv.size) ++ updateTrackIdInTrex tx 2)
        0 (mv.size + tx.length) := by
  obtain ⟨hscan, hsize, hdata, hoff8, hsz8, hbound⟩ := findSubBoxWithOffset_some _ _ _ hfind
  have hlenA : (jsSlice vMoov 0 mv.offset).length = mv.offset := by
    rw [length_jsSlice]; omega
  have hlenO : (jsSlice vMoov mv.offset (mv.offset + mv.size)).length = mv.size := by
    rw [length_jsSlice]; omega
  have hlenN : (writeU32 (jsSlice vMoov mv.offset (mv.offset + mv.size) ++
      updateTrackIdInTrex tx 2) 0 (mv.size + tx.length)).length = mv.size + tx.length := by
    simp [hlenO]
  refine ⟨?_, ?_, ?_, ?_⟩
  · unfold createMergedMoov
    rw [hupd, hfind]
    unfold specMergedMoov
    simp only [length_updateTrackIdInTrex, length_writeU32, List.length_append, hlenA, hlenO]
  · simp only [specMergedMoov, length_writeU32, List.length_append, hlenA, hlenN]
  · unfold specMergedMoov
    rw [readU32_writeU32 _ _ _ (by
      simp only [List.length_append, hlenA, hlenN]
      omega)]
  · unfold specMergedMoov
    rw [drop_writeU32_le _ _ _ _ (by omega : 0 + 4 ≤ mv.offset + tc.length)]
    rw [show jsSlice vMoov 0 mv.offset ++ tc ++
        writeU32 (jsSlice vMoov mv.offset (mv.offset + mv.size) ++ updateTrackIdInTrex tx 2)
          0 (mv.size + tx.length) =
        (jsSlice vMoov 0 mv.offset ++ tc) ++
        writeU32 (jsSlice vMoov mv.offset (mv.offset + mv.size) ++ updateTrackIdInTrex tx 2)
          0 (mv.size + tx.length) from by simp]
    rw [show mv.offset + tc.length = (jsSlice vMoov 0 mv.offset ++ tc).length from by
      simp [hlenA]]
    exact drop_append_length _ _

/-- Witness for C6 at a concrete moov with one trak and an mvex/trex. -/
theorem merged_moov_layout_witness :
    createMergedMoov miniMoovMvex (miniTrak 9) (some miniTrex3) =
        .ok (specMergedMoov miniMoovMvex (writeU32 (miniTrak 9) 28 2) miniTrex3 40 24)
  ∧ readU32 (specMergedMoov miniMoovMvex (writeU32 (miniTrak 9) 28 2) miniTrex3 40 24) 0 =
      (40 + (writeU32 (miniTrak 9) 28 2).length + (24 + miniTrex3.length)) % 2 ^ 32 := by
  have h := merged_moov_layout miniMoovMvex (miniTrak 9) miniTrex3
    (writeU32 (miniTrak 9) 28 2) ⟨40, 24, jsSlice miniMoovMvex 40 64⟩ rfl rfl
  exact ⟨h.1, h.2.2.1⟩

/-- C2 (counterexample): the fragmented path does NOT normalize the video
track's ID to 1.  With a video moov whose only trak carries track_ID 5,
the merged moov still reads 5 at the video tkhd's track_ID field
(absolute offset 36 = moov header 8 + trak header 8 + tkhd header 8 +
field offset 12), not 1. -/
theorem merged_moov_video_id_counterexample :
    (exOk (createMergedMoov (miniMoov 5) (miniTrak 9) none)).map (fun m => readU32 m 36) =
      some 5 ∧ readU32 (miniMoov 5) 36 = 5 := ⟨by decide, by decide⟩

/-- C2 (amended): the audio track's ID is normalized to 2 in both paths
(`updateTrackIdInTrak` writes 2 into the version-0 tkhd of the audio trak
copy), but in the fragmented path the video moov's bytes — including its
trak's track_ID — are preserved unchanged except for the leading size
field; in the progressive path track IDs are assigned positionally, so
the video track receives ID 1 and the audio track ID 2 when the demuxer
lists the video track first, and `buildTrakCore` writes that ID into the
built tkhd at box-relative offset 28. -/
theorem track_id_normalization :
    (∀ (trak : Bytes) (p : Nat), scanSub trak TKHD 8 = some p →
        trak.getD (p + 8) 0 = 0 → p + 24 ≤ trak.length →
        updateTrackIdInTrak trak 2 = .ok (writeU32 trak (p + 20) 2)
          ∧ readU32 (writeU32 trak (p + 20) 2) (p + 20) = 2)
  ∧ (∀ (vMoov aTrak tc : Bytes), updateTrackIdInTrak aTrak 2 = .ok tc →
        createMergedMoov vMoov aTrak none =
          .ok (writeU32 (vMoov ++ tc) 0 (vMoov.length + tc.length))
          ∧ ∀ i, 4 ≤ i → i < vMoov.length →
              (writeU32 (vMoov ++ tc) 0 (vMoov.length + tc.length)).getD i 0 =
                vMoov.getD i 0)
  ∧ (∀ (vS aS : Option Bytes) (v a : DemuxTrack) (vs as' : List MSample),
        v.isVideo = true → a.isVideo = false → vs.isEmpty = false → as'.isEmpty = false →
        (buildOutputTracks vS aS [(v, vs), (a, as')]).map (fun t => t.id) = [1, 2]
          ∧ (buildOutputTracks vS aS [(v, vs), (a, as')]).map (fun t => t.isVideo) =
              [true, false])
  ∧ (∀ (s : Bytes) (t : MTrack) (off : Nat), t.id < 2 ^ 32 →
        readU32 (buildTrakCore s t off) 28 = t.id) := by
  refine ⟨?_, ?_, ?_, ?_⟩
  · intro trak p hscan hver hlen
    have h1 : updateTrackIdInTrak trak 2 = .ok (writeU32 trak (p + 20) 2) := by
      unfold updateTrackIdInTrak
      rw [hscan]
      dsimp only
      rw [hver]
      simp [setU32, show p + 20 + 4 ≤ trak.length from by omega]
    refine ⟨h1, ?_⟩
    rw [readU32_writeU32 _ _ _ (by omega)]
    norm_num
  · intro vMoov aTrak tc hupd
    constructor
    · unfold createMergedMoov
      rw [hupd]
      cases hmv : findSubBoxWithOffset vMoov MVEX <;> rfl
    · intro i h4 hi
      rw [getD_writeU32_outside _ _ _ _ (Or.inr (by omega)), getD_append_lt _ _ _ hi]
  · intro vS aS v a vs as' hv ha hvs has
    constructor <;>
      simp [buildOutputTracks, assignTracks, sortVideoFirst, hv, ha, hvs, has]
  · intro s t off hid
    unfold buildTrakCore tkhdContent
    simp only [makeBox, List.append_assoc]
    simp [readU32_append_ge, readU32_u32be_append]
    omega

/-- Witness for the amended C2 at concrete inputs. -/
theorem track_id_normalization_witness :
    updateTrackIdInTrak (miniTrak 9) 2 = .ok (writeU32 (miniTrak 9) 28 2)
  ∧ createMergedMoov (miniMoov 5) (miniTrak 9) none =
      .ok (writeU32 (miniMoov 5 ++ writeU32 (miniTrak 9) 28 2) 0
        ((miniMoov 5).length + (writeU32 (miniTrak 9) 28 2).length))
  ∧ (writeU32 (miniMoov 5 ++ writeU32 (miniTrak 9) 28 2) 0
        ((miniMoov 5).length + (writeU32 (miniTrak 9) 28 2).length)).getD 36 0 =
      (miniMoov 5).getD 36 0
  ∧ (buildOutputTracks (some (zeros 8)) none
        [(wDemuxVideo, [wSample]), (wDemuxAudio, [wSample])]).map (fun t => t.id) = [1, 2]
  ∧ readU32 (buildTrakCore (zeros 8) wTrack 0) 28 = wTrack.id := by
  refine ⟨?_, ?_, ?_, ?_, ?_⟩
  · exact (track_id_normalization.1 (miniTrak 9) 8 rfl rfl (by decide)).1
  · exact (track_id_normalization.2.1 (miniMoov 5) (miniTrak 9)
      (writeU32 (miniTrak 9) 28 2) rfl).1
  · exact (track_id_normalization.2.1 (miniMoov 5) (miniTrak 9)
      (writeU32 (miniTrak 9) 28 2) rfl).2 36 (by decide) (by decide)
  · exact (track_id_normalization.2.2.1 (some (zeros 8)) none wDemuxVideo wDemuxAudio
      [wSample] [wSample] rfl rfl rfl rfl).1
  · exact track_id_normalization.2.2.2 (zeros 8) wTrack 0 (by decide)

/-- C3 (code bug): the audio `sidx` patch writes through a typed-array
VIEW into the caller's `audioData` buffer (`src/content.js:106-110` make
the sidx fragment a view, `src/content.js:125-129` patch it in place), so
after `binaryMuxFragmentedMP4` completes, `audioData`'s sidx
reference_ID bytes have been changed to 2 — the input is NOT
byte-for-byte unchanged, although `videoData` is.  (The adjacent moof
patch explicitly copies first, `src/content.js:112`, which the sidx path
omits.)  Evaluated at a concrete audio input whose sidx has
reference_ID 7 at bytes 52..55. -/
theorem sidx_patch_mutates_audio :
    (exOk (binaryMuxFragmentedMP4 cexVideoData cexAudioData)).map (fun r => (r.2.1, r.2.2)) =
      some (cexVideoData, writeU32 cexAudioData 52 2)
  ∧ writeU32 cexAudioData 52 2 ≠ cexAudioData := ⟨by decide, by decide⟩

@[simp] theorem length_stcoBox (off : Nat) : (stcoBox off).length = 20 := by
  simp [stcoBox, length_makeBox]

@[simp] theorem length_ftypR : ftypR.length = 28 := rfl

@[simp] theorem length_ftypF : ftypF.length = 28 := rfl

theorem readU32_stcoBox (off : Nat) : readU32 (stcoBox off) 16 = off % 2 ^ 32 := by
  unfold stcoBox makeBox
  simp only [List.append_assoc]
  simp [readU32_append_ge, readU32_u32be]

/-- Rebuilding a trak at a different chunk offset does not change its
serialized length: the stco box is fixed-size. -/
theorem length_buildTrakCore_const (s : Bytes) (t : MTrack) (a c : Nat) :
    (buildTrakCore s t a).length = (buildTrakCore s t c).length := by
  simp [buildTrakCore, stblParts, length_makeBox, List.length_append, List.length_flatten]

theorem finalTraksFrom_map_length (build : MTrack → Nat → Bytes)
    (hconst : ∀ t a c, (build t a).length = (build t c).length) :
    ∀ (ts : List MTrack) (off : Nat),
      (finalTraksFrom build ts off).map List.length = ts.map fun t => (build t 0).length := by
  intro ts
  induction ts with
  | nil => intro off; rfl
  | cons t ts2 ih =>
    intro off
    simp [finalTraksFrom, ih, hconst t off 0]

theorem finalTraksFrom_flatten_length (build : MTrack → Nat → Bytes)
    (hconst : ∀ t a c, (build t a).length = (build t c).length)
    (ts : List MTrack) (off : Nat) :
    ((finalTraksFrom build ts off).flatten).length =
      ((ts.map fun t => build t 0).flatten).length := by
  rw [List.length_flatten, List.length_flatten, finalTraksFrom_map_length build hconst ts off,
    List.map_map]
  rfl

theorem drop_append_eq (x y : Bytes) (n : Nat) (h : x.length = n) : (x ++ y).drop n = y := by
  subst h
  exact drop_append_length x y

/-- The single-chunk stco box the builder serializes for a track sits
inside the trak built at that offset. -/
theorem stco_sub_trakCore (s : Bytes) (t : MTrack) (off : Nat) :
    stcoBox off <:+: buildTrakCore s t off := by
  have h1 : stcoBox off <:+: (stblParts s t off).flatten := by
    refine ⟨s ++ (sttsBox t.samples ++ (stscBox t.samples.length ++ stszBox t.samples)),
      ((if t.isVideo then (stssOpt t.samples).toList else []) ++
        (cttsOpt t.samples).toList).flatten, ?_⟩
    simp [stblParts, List.append_assoc]
  have h2 := sub_makeBox STBL _ _ h1
  have h3 := sub_append_left ((if t.isVideo then vmhdBox else smhdBox) ++ dinfBox) _ _ h2
  have h4 := sub_makeBox MINF _ _ h3
  have h5 := sub_append_left
    (makeBox MDHD (mdhdContent t.timescale t.duration) ++ hdlrBox t.isVideo) _ _ h4
  have h6 := sub_makeBox MDIA _ _ h5
  have h7 := sub_append_left
    (makeBox TKHD (tkhdContent t (jsRoundRatio (t.duration * 1000) t.timescale))) _ _ h6
  exact sub_makeBox TRAK _ _ h7

/-- In the second pass, the trak at index `i` is built at the running
offset `off + sumDataBefore ts i`, and its stco box is inside the
flattened trak list. -/
theorem stco_sub_finalTraks (build : MTrack → Nat → Bytes)
    (hbase : ∀ t off, stcoBox off <:+: build t off) :
    ∀ (ts : List MTrack) (off i : Nat), i < ts.length →
      stcoBox (off + sumDataBefore ts i) <:+: (finalTraksFrom build ts off).flatten := by
  intro ts
  induction ts with
  | nil => intro off i h; simp at h
  | cons t ts2 ih =>
    intro off i h
    cases i with
    | zero =>
      rw [show sumDataBefore (t :: ts2) 0 = 0 from by simp [sumDataBefore], Nat.add_zero]
      simp only [finalTraksFrom, List.flatten_cons]
      exact sub_append_right _ _ _ (hbase t off)
    | succ j =>
      rw [show sumDataBefore (t :: ts2) (j + 1) =
        trackDataSize t + sumDataBefore ts2 j from by simp [sumDataBefore]]
      rw [show off + (trackDataSize t + sumDataBefore ts2 j) =
        (off + trackDataSize t) + sumDataBefore ts2 j from by omega]
      simp only [finalTraksFrom, List.flatten_cons]
      exact sub_append_left _ _ _ (ih (off + trackDataSize t) j (by simpa using h))

/-- The two-pass layout, generically in the trak builder (the raw-stsd
and MP4Box-entry builders share everything but the stsd box): with the
media-data start measured as `ftyp.length + tempMoov.length + 8` from the
placeholder-offset moov, the media payload begins at exactly that byte
index of the output, and the stco box for track `i` is built at
`start + sumDataBefore tracks i`. -/
theorem builder_offsets (build : MTrack → Nat → Bytes) (ftypX : Bytes)
    (hconst : ∀ t a c, (build t a).length = (build t c).length)
    (hbase : ∀ t off, stcoBox off <:+: build t off)
    (tracks : List MTrack) (start : Nat)
    (hstart : start = ftypX.length +
      (makeBox MOOV (mvhdBoxOf tracks ++ (tracks.map fun t => build t 0).flatten)).length + 8) :
    (ftypX ++ makeBox MOOV (mvhdBoxOf tracks ++ (finalTraksFrom build tracks start).flatten) ++
        makeBox MDAT (mdatPayload tracks)).drop start = mdatPayload tracks
  ∧ (ftypX ++ makeBox MOOV (mvhdBoxOf tracks ++ (finalTraksFrom build tracks start).flatten) ++
        makeBox MDAT (mdatPayload tracks)).length = start + (mdatPayload tracks).length
  ∧ ∀ i, i < tracks.length →
      stcoBox (start + sumDataBefore tracks i) <:+:
        ftypX ++ makeBox MOOV (mvhdBoxOf tracks ++ (finalTraksFrom build tracks start).flatten) ++
          makeBox MDAT (mdatPayload tracks) := by
  have hflat := finalTraksFrom_flatten_length build hconst tracks start
  have hstart2 : start = ftypX.length + (8 + ((mvhdBoxOf tracks).length +
      ((tracks.map fun t => build t 0).flatten).length)) + 8 := by
    rw [hstart, length_makeBox _ _ (show MOOV.length = 4 from rfl), List.length_append]
  have hplen : (ftypX ++
      makeBox MOOV (mvhdBoxOf tracks ++ (finalTraksFrom build tracks start).flatten) ++
      u32be (8 + (mdatPayload tracks).length) ++ MDAT).length = start := by
    simp only [List.length_append, length_u32be, length_MDAT,
      length_makeBox _ _ (show MOOV.length = 4 from rfl)]
    omega
  have hassoc : ftypX ++
      makeBox MOOV (mvhdBoxOf tracks ++ (finalTraksFrom build tracks start).flatten) ++
      makeBox MDAT (mdatPayload tracks) =
      (ftypX ++
        makeBox MOOV (mvhdBoxOf tracks ++ (finalTraksFrom build tracks start).flatten) ++
        u32be (8 + (mdatPayload tracks).length) ++ MDAT) ++ mdatPayload tracks := by
    simp [makeBox, List.append_assoc]
  refine ⟨?_, ?_, ?_⟩
  · rw [hassoc]
    exact drop_append_eq _ _ _ hplen
  · rw [hassoc, List.length_append, hplen]
  · intro i hi
    have h1 := stco_sub_finalTraks build hbase tracks start i hi
    have h2 := sub_append_left (mvhdBoxOf tracks) _ _ h1
    have h3 := sub_makeBox MOOV _ _ h2
    have h4 := sub_append_left ftypX _ _ h3
    exact sub_append_right _ (makeBox MDAT (mdatPayload tracks)) _ h4

/-- C7: both progressive builders resolve offsets in two passes.  The
media payload starts at exactly `mdatStart = ftyp.length +
measuredMoov.length + 8` (measured with placeholder chunk offset 0): the
output's bytes from `mdatStart` on are precisely the concatenated
per-track sample data, video first then audio, each one contiguous run;
and the stco box of track `i` is serialized at offset `mdatStart +
(sum of preceding tracks' payload sizes)`, its single 32-bit entry
holding that value. -/
theorem progressive_two_pass_offsets (tracks : List MTrack) :
    ((buildMP4WithRawStsd tracks).drop (mdatStartR tracks) = mdatPayload tracks
   ∧ (buildMP4WithRawStsd tracks).length = mdatStartR tracks + (mdatPayload tracks).length
   ∧ ∀ i, i < tracks.length →
       stcoBox (mdatStartR tracks + sumDataBefore tracks i) <:+: buildMP4WithRawStsd tracks
       ∧ readU32 (stcoBox (mdatStartR tracks + sumDataBefore tracks i)) 16 =
           (mdatStartR tracks + sumDataBefore tracks i) % 2 ^ 32)
  ∧ ((buildMP4File tracks).drop (mdatStartF tracks) = mdatPayload tracks
   ∧ (buildMP4File tracks).length = mdatStartF tracks + (mdatPayload tracks).length
   ∧ ∀ i, i < tracks.length →
       stcoBox (mdatStartF tracks + sumDataBefore tracks i) <:+: buildMP4File tracks
       ∧ readU32 (stcoBox (mdatStartF tracks + sumDataBefore tracks i)) 16 =
           (mdatStartF tracks + sumDataBefore tracks i) % 2 ^ 32) := by
  have hconstR : ∀ t a c, (buildTrakR t a).length = (buildTrakR t c).length := by
    intro t a c; exact length_buildTrakCore_const (stsdR t) t a c
  have hconstF : ∀ t a c, (buildTrakF t a).length = (buildTrakF t c).length := by
    intro t a c; exact length_buildTrakCore_const (stsdF t) t a c
  have hbaseR : ∀ t off, stcoBox off <:+: buildTrakR t off := by
    intro t off; exact stco_sub_trakCore (stsdR t) t off
  have hbaseF : ∀ t off, stcoBox off <:+: buildTrakF t off := by
    intro t off; exact stco_sub_trakCore (stsdF t) t off
  obtain ⟨r1, r2, r3⟩ :=
    builder_offsets buildTrakR ftypR hconstR hbaseR tracks (mdatStartR tracks) rfl
  obtain ⟨f1, f2, f3⟩ :=
    builder_offsets buildTrakF ftypF hconstF hbaseF tracks (mdatStartF tracks) rfl
  exact ⟨⟨r1, r2, fun i hi => ⟨r3 i hi, readU32_stcoBox _⟩⟩,
    ⟨f1, f2, fun i hi => ⟨f3 i hi, readU32_stcoBox _⟩⟩⟩

/-- Witness for C7 at a concrete one-track list. -/
theorem progressive_two_pass_offsets_witness :
    (buildMP4WithRawStsd [wTrack]).drop (mdatStartR [wTrack]) = mdatPayload [wTrack]
  ∧ stcoBox (mdatStartR [wTrack] + sumDataBefore [wTrack] 0) <:+: buildMP4WithRawStsd [wTrack]
  ∧ (buildMP4File [wTrack]).length = mdatStartF [wTrack] + (mdatPayload [wTrack]).length := by
  have h := progressive_two_pass_offsets [wTrack]
  exact ⟨h.1.1, (h.1.2.2 0 (by decide)).1, h.2.2.1⟩

/-- C4 (amended): the timeout policies of the two collectors differ.  The
`parseFile` collector resolves with the samples gathered so far when the
declared total is never reached (the subsequent MP4Box rebuild proceeds
with them), but the `defragmentWithRawStsd` collector rejects with a
Timeout error whenever some declared track stays short of its declared
count, and the operation falls back to the next muxing strategy. -/
theorem collector_timeout_policies :
    (∀ (total : Nat) (events : List (List Nat)), events.flatten.length < total →
      parseFileCollect total events = events.flatten)
  ∧ (∀ (tracks : List (Nat × Nat)) (events : List (Nat × List Nat)) (id nb : Nat),
      (id, nb) ∈ tracks → deliveredTo events id < nb →
      defragCollect tracks events = Except.error ()) := by
  refine ⟨?_, ?_⟩
  · intro total events h
    unfold parseFileCollect
    have := parseFileLoop_partial events [] total (by simpa using h)
    simpa using this
  · intro tracks events id nb hmem hdel
    unfold defragCollect
    rw [collectLoop_timeout tracks id nb hmem events (initAcc tracks)
      (by rw [lookup_init]; simpa using hdel)]

/-- Witness for the amended C4: three of ten samples arrive — `parseFile`
resolves with the three, `defragmentWithRawStsd` rejects. -/
theorem collector_timeout_policies_witness :
    parseFileCollect 10 [[0, 1, 2]] = [0, 1, 2] ∧
      defragCollect [(1, 10)] [(1, [5, 6])] = Except.error () := by
  refine ⟨?_, ?_⟩
  · exact collector_timeout_policies.1 10 [[0, 1, 2]] (by decide)
  · exact collector_timeout_policies.2 [(1, 10)] [(1, [5, 6])] 1 10 (by decide) (by decide)

end SVD
